import Mathlib

/-!
# Scanner multiplexer (`scanner/multiplexer.go`)

A shallow embedding of the Go type `Multiplexer` and its methods.

* The registry methods (`NewMultiplexer`, `AddScanner`, `AddScanAddress`,
  `GetScanner`, `GetScannerCount`) are pure state-passing functions.
* `Multiplex`, its forwarding goroutines, the consumer of `GetDeposit()` and
  `Shutdown` form a small-step transition system (`step`), one atomic Go
  operation (channel send / receive / close, `WaitGroup` call, goroutine
  start) per step, driven by an explicit schedule (`run`).

Modelling conventions.

* `Scanner` is an interface declared outside this file.  A non-nil interface
  value is identified by a reference `ScannerRef`; the nil interface is `none`.
* `DepositNote` is a struct declared outside this file; it is a type parameter.
* `map[string]Scanner` is an association list that holds at most one entry per
  key as long as it is only written through `ScannerMap.store`.
* `scannerCount` is a Go `int`.  It is only ever incremented together with the
  insertion of a fresh key into `scannerMap`, and a Go map cannot hold `2^63`
  entries, so the increment never wraps; it is a `Nat` here.
* The logger and the `RWMutex` are not modelled: every registry method is one
  atomic state transformer.
* A producer's `GetDeposit()` channel is the list of values the producer has
  yet to deliver on it, after which the channel is closed: a receive takes the
  head of the list, or sees the channel closed when the list is empty.  Two
  goroutines started with the same scanner receive from the same list.
* A panic in any goroutine ends the program: no step follows it.
* `Multiplex` is called once; `Shutdown` may be called any number of times, at
  any moment.
-/

namespace Teller

/-! ## Values -/

/-- Go `error` value, identified by its message. -/
structure GoError where
  message : String
deriving DecidableEq, Repr

/-- Go `errors.New`. -/
def errorsNew (text : String) : GoError := ⟨text⟩

/-- Identity of a non-nil value of interface type `Scanner`. -/
abbrev ScannerRef := Nat

/-- Value of interface type `Scanner`; `none` is the nil interface. -/
abbrev Scanner := Option ScannerRef

/-- Run-time panics the modelled code can raise. -/
inductive Panic where
  | nilDereference
  | closeOfClosedChannel
  | sendOnClosedChannel
  | negativeWaitGroupCounter
deriving DecidableEq, Repr

/-! ## `map[string]Scanner` -/

/-- Go `map[string]Scanner`. -/
abbrev ScannerMap := List (String × Scanner)

namespace ScannerMap

/-- Go `v, ok := m[k]`: `none` when `ok` is false. -/
def lookup : ScannerMap → String → Option Scanner
  | [], _ => none
  | (k', v') :: rest, k => if k' = k then some v' else lookup rest k

/-- Go `m[k] = v`: overwrite the entry of `k` if there is one, else add it. -/
def store : ScannerMap → String → Scanner → ScannerMap
  | [], k, v => [(k, v)]
  | (k', v') :: rest, k, v =>
    if k' = k then (k, v) :: rest else (k', v') :: store rest k v

/-- Keys of the map, in storage order. -/
def keys (sm : ScannerMap) : List String := sm.map Prod.fst

/-- Go `len(m)`: the number of distinct keys present. -/
def len (sm : ScannerMap) : Nat := sm.keys.dedup.length

end ScannerMap

/-! ## Channels -/

/-- Go channel: buffered values (oldest first), capacity, closed flag, and a
ghost counter of how many times `close` was executed on it (the execution
that panics because the channel is already closed included). -/
structure Chan (α : Type) where
  buf : List α
  cap : Nat
  closed : Bool
  closes : Nat
deriving DecidableEq, Repr

/-- Go `make(chan α, cap)`. -/
def Chan.make {α : Type} (cap : Nat) : Chan α := ⟨[], cap, false, 0⟩

/-- The channel after `close(c)` was executed on it. -/
def Chan.close {α : Type} (c : Chan α) : Chan α :=
  { c with closed := true, closes := c.closes + 1 }

/-! ## The multiplexer -/

/-- Go `type Multiplexer struct` (logger and mutex left out). -/
structure Multiplexer (DepositNote : Type) where
  scannerMap : ScannerMap
  outChan : Chan DepositNote
  scannerCount : Nat
  quit : Chan Unit
  done : Chan Unit
deriving DecidableEq, Repr

variable {DepositNote : Type}

/-- Go `NewMultiplexer`. -/
def NewMultiplexer : Multiplexer DepositNote :=
  { scannerMap := []
    outChan := Chan.make 1000
    scannerCount := 0
    quit := Chan.make 0
    done := Chan.make 1 }

/-- Go `(*Multiplexer).AddScanner`: the new state and the returned error. -/
def AddScanner (m : Multiplexer DepositNote) (scanner : Scanner) (coinType : String) :
    Multiplexer DepositNote × Option GoError :=
  match scanner with
  | none => (m, some (errorsNew "nil scanner"))
  | some _ =>
    match m.scannerMap.lookup coinType with
    | some _ => (m, some ⟨"scanner of coinType " ++ coinType ++ " already exists"⟩)
    | none =>
      ({ m with
          scannerMap := m.scannerMap.store coinType scanner
          scannerCount := m.scannerCount + 1 }, none)

/-- One invocation of a producer's own `AddScanAddress`. -/
structure Call where
  scanner : ScannerRef
  depositAddr : String
  coinType : String
deriving DecidableEq, Repr

/-- The producers, which live outside this file: what the `AddScanAddress`
method of producer `r` returns, given every producer call made so far. -/
structure Producers where
  addScanAddress : List Call → ScannerRef → String → String → Option GoError

/-- A multiplexer together with the log of calls it made into producers. -/
structure World (DepositNote : Type) where
  m : Multiplexer DepositNote
  calls : List Call
deriving DecidableEq, Repr

/-- Go `(*Multiplexer).AddScanAddress`: the new world and the returned error,
or the panic of a method call on a nil interface. -/
def AddScanAddress (P : Producers) (w : World DepositNote) (depositAddr coinType : String) :
    Except Panic (World DepositNote × Option GoError) :=
  match w.m.scannerMap.lookup coinType with
  | none => .ok (w, some (errorsNew "unknown cointype"))
  | some none => .error .nilDereference
  | some (some r) =>
    .ok ({ w with calls := w.calls ++ [⟨r, depositAddr, coinType⟩] },
         P.addScanAddress w.calls r depositAddr coinType)

/-- Go `(*Multiplexer).GetScannerCount`. -/
def GetScannerCount (m : Multiplexer DepositNote) : Nat := m.scannerCount

/-- Go `(*Multiplexer).GetScanner`. -/
def GetScanner (m : Multiplexer DepositNote) (coinType : String) : Scanner :=
  match m.scannerMap.lookup coinType with
  | none => none
  | some scanner => scanner

/-- Go `(*Multiplexer).GetDeposit`: the output channel. -/
def GetDeposit (m : Multiplexer DepositNote) : Chan DepositNote := m.outChan

/-! ## Sequences of registry calls -/

/-- A call of one of the registry methods. -/
inductive Op where
  | addScanner (scanner : Scanner) (coinType : String)
  | addScanAddress (depositAddr coinType : String)
  | getScanner (coinType : String)
  | getScannerCount
deriving DecidableEq, Repr

/-- What a registry method returned. -/
inductive Ret where
  | err (e : Option GoError)
  | scanner (s : Scanner)
  | count (n : Nat)
deriving DecidableEq, Repr

/-- Perform one registry call. -/
def applyOp (P : Producers) (w : World DepositNote) : Op → Except Panic (World DepositNote × Ret)
  | .addScanner scanner coinType =>
    .ok ({ w with m := (AddScanner w.m scanner coinType).1 },
         .err (AddScanner w.m scanner coinType).2)
  | .addScanAddress depositAddr coinType =>
    match AddScanAddress P w depositAddr coinType with
    | .ok (w', e) => .ok (w', .err e)
    | .error p => .error p
  | .getScanner coinType => .ok (w, .scanner (GetScanner w.m coinType))
  | .getScannerCount => .ok (w, .count (GetScannerCount w.m))

/-- Perform registry calls one after the other, collecting what they return. -/
def runOps (P : Producers) (w : World DepositNote) : List Op → Except Panic (World DepositNote × List Ret)
  | [] => .ok (w, [])
  | op :: ops =>
    match applyOp P w op with
    | .error p => .error p
    | .ok (w', r) =>
      match runOps P w' ops with
      | .error p => .error p
      | .ok (w'', rs) => .ok (w'', r :: rs)

/-- A freshly created multiplexer that has called no producer yet. -/
def freshWorld : World DepositNote := ⟨NewMultiplexer, []⟩

/-- Perform `AddScanner` calls one after the other, collecting the errors. -/
def addScanners (m : Multiplexer DepositNote) :
    List (Scanner × String) → Multiplexer DepositNote × List (Option GoError)
  | [] => (m, [])
  | (scanner, coinType) :: rest =>
    ((addScanners (AddScanner m scanner coinType).1 rest).1,
      (AddScanner m scanner coinType).2 :: (addScanners (AddScanner m scanner coinType).1 rest).2)

/-- The scanner passed to the first `AddScanner` call for `coinType` that
returned nil, in a list of calls paired with what they returned; nil if none. -/
def firstRegistered (coinType : String) : List (Op × Ret) → Scanner
  | [] => none
  | (.addScanner scanner c, .err none) :: rest =>
    if c = coinType then scanner else firstRegistered coinType rest
  | _ :: rest => firstRegistered coinType rest

/-! ## `Multiplex`, its goroutines, the consumer and `Shutdown` -/

/-- Where a forwarding goroutine stands in
`for dv := range scan.GetDeposit() { m.outChan <- dv }`. -/
inductive TaskPc (DepositNote : Type) where
  | receiving
  | sending (dv : DepositNote)
  | exited
deriving DecidableEq, Repr

/-- Whether the goroutine holds a value it has yet to publish. -/
def TaskPc.isSending : TaskPc DepositNote → Bool
  | .sending _ => true
  | _ => false

/-- A forwarding goroutine: the scanner it was started with and where it stands. -/
structure Task (DepositNote : Type) where
  scan : Scanner
  pc : TaskPc DepositNote
deriving DecidableEq, Repr

/-- Where the goroutine that runs `Multiplex` stands: in the `for ... range
m.scannerMap` loop with the entries still to visit, at `wg.Wait()`, in the
deferred `close(m.done)`, or returned with its result. -/
inductive MultiplexPc where
  | ranging (rest : List (String × Scanner))
  | waiting
  | closingDone
  | returned (err : Option GoError)
deriving DecidableEq, Repr

/-- Where a goroutine that runs `Shutdown` stands. -/
inductive ShutdownPc where
  | closeQuit
  | closeOutChan
  | waitDone
  | returned
deriving DecidableEq, Repr

/-- The running system.  `streams[r]` holds the values producer `r` has yet to
deliver on its `GetDeposit()` channel, after which that channel is closed (a
producer outside `streams` has an empty, closed channel).  `sent` is a ghost
log of the sends into `outChan`, each tagged with the sending goroutine's
scanner. -/
structure System (DepositNote : Type) where
  m : Multiplexer DepositNote
  streams : List (List DepositNote)
  multiplex : MultiplexPc
  wg : Nat
  tasks : List (Task DepositNote)
  shutdowns : List ShutdownPc
  consumed : List DepositNote
  sent : List (Scanner × DepositNote)
  crashed : Option Panic
deriving DecidableEq, Repr

/-- What the scheduler picks next: a step of `Multiplex`, of forwarding
goroutine `i`, of the consumer of `GetDeposit()`, a new call of `Shutdown`, or
a step of the `j`-th `Shutdown` call. -/
inductive Action where
  | multiplex
  | task (i : Nat)
  | consume
  | callShutdown
  | shutdown (j : Nat)
deriving DecidableEq, Repr

/-- The values producer `scan` has yet to deliver. -/
def streamOf (streams : List (List DepositNote)) : Scanner → List DepositNote
  | none => []
  | some r => streams.getD r []

/-- The system at the call of `Multiplex` on `m`.  `order` lists the entries of
`m.scannerMap` in the order in which `for ... range m.scannerMap` will visit
them; Go leaves that order unspecified, so the claims take any permutation of
the map for it. -/
def System.init (m : Multiplexer DepositNote) (order : List (String × Scanner))
    (streams : List (List DepositNote)) : System DepositNote :=
  { m := m
    streams := streams
    multiplex := .ranging order
    wg := 0
    tasks := []
    shutdowns := []
    consumed := []
    sent := []
    crashed := none }

/-- One step of `Multiplex`: visit the next map entry (`wg.Add(1)` and `go`),
leave the loop, pass `wg.Wait()`, or run the deferred `close(m.done)` and
return nil. -/
def stepMultiplex (s : System DepositNote) : Option (System DepositNote) :=
  match s.multiplex with
  | .ranging [] => some { s with multiplex := .waiting }
  | .ranging (e :: rest) =>
    some { s with
      multiplex := .ranging rest
      wg := s.wg + 1
      tasks := s.tasks ++ [⟨e.2, .receiving⟩] }
  | .waiting => if s.wg = 0 then some { s with multiplex := .closingDone } else none
  | .closingDone =>
    if s.m.done.closed then
      some { s with m := { s.m with done := s.m.done.close }, crashed := some .closeOfClosedChannel }
    else
      some { s with m := { s.m with done := s.m.done.close }, multiplex := .returned none }
  | .returned _ => none

/-- One step of forwarding goroutine `i`: receive the next value of its
scanner's channel, or see that channel closed and exit through `wg.Done()`;
or send the value it holds into `outChan`. -/
def stepTask (s : System DepositNote) (i : Nat) : Option (System DepositNote) :=
  match s.tasks[i]? with
  | none => none
  | some t =>
    match t.pc with
    | .exited => none
    | .receiving =>
      match t.scan with
      | none => some { s with crashed := some .nilDereference }
      | some r =>
        match s.streams.getD r [] with
        | [] =>
          if s.wg = 0 then some { s with crashed := some .negativeWaitGroupCounter }
          else some { s with tasks := s.tasks.set i { t with pc := .exited }, wg := s.wg - 1 }
        | dv :: rest =>
          some { s with
            streams := s.streams.set r rest
            tasks := s.tasks.set i { t with pc := .sending dv } }
    | .sending dv =>
      if s.m.outChan.closed then some { s with crashed := some .sendOnClosedChannel }
      else if s.m.outChan.buf.length < s.m.outChan.cap then
        some { s with
          m := { s.m with outChan := { s.m.outChan with buf := s.m.outChan.buf ++ [dv] } }
          sent := s.sent ++ [(t.scan, dv)]
          tasks := s.tasks.set i { t with pc := .receiving } }
      else none

/-- One step of the consumer: receive the oldest value of `outChan`. -/
def stepConsume (s : System DepositNote) : Option (System DepositNote) :=
  match s.m.outChan.buf with
  | [] => none
  | dv :: rest =>
    some { s with
      m := { s.m with outChan := { s.m.outChan with buf := rest } }
      consumed := s.consumed ++ [dv] }

/-- One step of the `j`-th `Shutdown` call: `close(m.quit)`, `close(m.outChan)`,
or `<-m.done`. -/
def stepShutdown (s : System DepositNote) (j : Nat) : Option (System DepositNote) :=
  match s.shutdowns[j]? with
  | none => none
  | some .closeQuit =>
    if s.m.quit.closed then
      some { s with m := { s.m with quit := s.m.quit.close }, crashed := some .closeOfClosedChannel }
    else
      some { s with
        m := { s.m with quit := s.m.quit.close }
        shutdowns := s.shutdowns.set j .closeOutChan }
  | some .closeOutChan =>
    if s.m.outChan.closed then
      some { s with
        m := { s.m with outChan := s.m.outChan.close }
        crashed := some .closeOfClosedChannel }
    else
      some { s with
        m := { s.m with outChan := s.m.outChan.close }
        shutdowns := s.shutdowns.set j .waitDone }
  | some .waitDone =>
    if s.m.done.closed then some { s with shutdowns := s.shutdowns.set j .returned } else none
  | some .returned => none

/-- One step of the system; `none` when the picked goroutine cannot move.  A
panic ends the program: nothing moves after it. -/
def step (s : System DepositNote) (a : Action) : Option (System DepositNote) :=
  if s.crashed.isSome then none
  else
    match a with
    | .multiplex => stepMultiplex s
    | .task i => stepTask s i
    | .consume => stepConsume s
    | .callShutdown => some { s with shutdowns := s.shutdowns ++ [.closeQuit] }
    | .shutdown j => stepShutdown s j

/-- Run a schedule; `none` when it picks a goroutine that cannot move. -/
def run (s : System DepositNote) : List Action → Option (System DepositNote)
  | [] => some s
  | a :: as =>
    match step s a with
    | none => none
    | some s' => run s' as

/-- No forwarding goroutine holds a value and every registered producer's
stream is used up: no sender will ever send again. -/
def System.quiescent (s : System DepositNote) : Bool :=
  s.tasks.all (fun t => !t.pc.isSending) &&
    s.m.scannerMap.all (fun e => (streamOf s.streams e.2).isEmpty)

/-- The caller's side of `Shutdown`: along the schedule, `Shutdown` is only
called in a quiescent state. -/
def obeysShutdownContract (s : System DepositNote) : List Action → Bool
  | [] => true
  | a :: as =>
    (a != .callShutdown || s.quiescent) &&
      match step s a with
      | none => true
      | some s' => obeysShutdownContract s' as

/-- The values sent into `outChan`, in order. -/
def System.output (s : System DepositNote) : List DepositNote := s.sent.map Prod.snd

/-- The values the goroutine of scanner `scan` sent into `outChan`, in order. -/
def System.outputOf (s : System DepositNote) (scan : Scanner) : List DepositNote :=
  (s.sent.filter (fun x => decide (x.1 = scan))).map Prod.snd

/-- Steps left to a forwarding goroutine, the value it holds counted through
its send and its consumption. -/
def TaskPc.weight : TaskPc DepositNote → Nat
  | .receiving => 1
  | .sending _ => 3
  | .exited => 0

/-- Steps left to `Multiplex`, the goroutines it has yet to start counted in. -/
def MultiplexPc.weight : MultiplexPc → Nat
  | .ranging rest => 2 * rest.length + 3
  | .waiting => 2
  | .closingDone => 1
  | .returned _ => 0

/-- An upper bound on the number of steps left without a `Shutdown` call. -/
def System.measure (s : System DepositNote) : Nat :=
  3 * (s.streams.map List.length).sum + (s.tasks.map (fun t => t.pc.weight)).sum +
    s.m.outChan.buf.length + s.multiplex.weight

/-- The multiplexer after the `AddScanner` calls `calls` on a fresh one. -/
def registered (DepositNote : Type) (calls : List (Scanner × String)) :
    Multiplexer DepositNote :=
  (addScanners NewMultiplexer calls).1

/-- Whether the goroutine still owes its `wg.Done()`. -/
def TaskPc.alive : TaskPc DepositNote → Nat
  | .exited => 0
  | _ => 1

/-- The value the goroutine has received and not yet sent, if any. -/
def TaskPc.held : TaskPc DepositNote → List DepositNote
  | .sending dv => [dv]
  | _ => []

/-- The map entries `Multiplex` has yet to visit. -/
def MultiplexPc.pending : MultiplexPc → List (String × Scanner)
  | .ranging rest => rest
  | _ => []

/-- Whether `Multiplex` is past `wg.Wait()`. -/
def MultiplexPc.pastWait : MultiplexPc → Bool
  | .closingDone => true
  | .returned _ => true
  | _ => false

/-- The `WaitGroup` invariant: the counter is the number of forwarding
goroutines that have not exited, and it is zero once `wg.Wait()` was passed. -/
structure WgInv (s : System DepositNote) : Prop where
  count : s.wg = (s.tasks.map (fun t => t.pc.alive)).sum
  zero : s.multiplex.pastWait = true → s.wg = 0

/-- The flow invariant, for registry values `vals` and initial streams `S0`:
every value of a registered producer's stream is in exactly one place (sent,
held by the producer's goroutine, or still in the stream), in stream order. -/
structure FlowInv (vals : List Scanner) (S0 : List (List DepositNote))
    (s : System DepositNote) : Prop where
  scans : s.tasks.map (fun t => t.scan) ++ s.multiplex.pending.map Prod.snd = vals
  split : ∀ (i : Nat) (t : Task DepositNote) (r : ScannerRef), s.tasks[i]? = some t →
    t.scan = some r →
    S0.getD r [] = s.outputOf (some r) ++ t.pc.held ++ s.streams.getD r []
  fresh : ∀ e ∈ s.multiplex.pending, ∀ r, e.2 = some r →
    S0.getD r [] = s.streams.getD r [] ∧ s.outputOf (some r) = []
  tags : ∀ x ∈ s.sent, x.1 ∈ s.tasks.map (fun t => t.scan) ∧ x.1 ≠ none
  drained : ∀ t ∈ s.tasks, t.pc = .exited → streamOf s.streams t.scan = []
  holders : ∀ t ∈ s.tasks, t.pc.isSending = true → t.scan ≠ none
  fifo : s.consumed ++ s.m.outChan.buf = s.output

/-- The rules of `step`, one constructor per way a goroutine can move. -/
inductive Step : System DepositNote → Action → System DepositNote → Prop where
  | leaveLoop (s : System DepositNote) (hc : s.crashed = none)
      (hpc : s.multiplex = .ranging []) :
      Step s .multiplex { s with multiplex := .waiting }
  | spawn (s : System DepositNote) (e : String × Scanner) (rest : List (String × Scanner))
      (hc : s.crashed = none) (hpc : s.multiplex = .ranging (e :: rest)) :
      Step s .multiplex
        { s with
          multiplex := .ranging rest
          wg := s.wg + 1
          tasks := s.tasks ++ [⟨e.2, .receiving⟩] }
  | waitPass (s : System DepositNote) (hc : s.crashed = none) (hpc : s.multiplex = .waiting)
      (hwg : s.wg = 0) :
      Step s .multiplex { s with multiplex := .closingDone }
  | closeDonePanic (s : System DepositNote) (hc : s.crashed = none)
      (hpc : s.multiplex = .closingDone) (hcl : s.m.done.closed = true) :
      Step s .multiplex
        { s with m := { s.m with done := s.m.done.close }, crashed := some .closeOfClosedChannel }
  | closeDone (s : System DepositNote) (hc : s.crashed = none)
      (hpc : s.multiplex = .closingDone) (hcl : s.m.done.closed = false) :
      Step s .multiplex
        { s with m := { s.m with done := s.m.done.close }, multiplex := .returned none }
  | taskNil (s : System DepositNote) (i : Nat) (t : Task DepositNote) (hc : s.crashed = none)
      (ht : s.tasks[i]? = some t) (hpc : t.pc = .receiving) (hscan : t.scan = none) :
      Step s (.task i) { s with crashed := some .nilDereference }
  | taskExitPanic (s : System DepositNote) (i : Nat) (t : Task DepositNote) (r : ScannerRef)
      (hc : s.crashed = none) (ht : s.tasks[i]? = some t) (hpc : t.pc = .receiving)
      (hscan : t.scan = some r) (hstream : s.streams.getD r [] = []) (hwg : s.wg = 0) :
      Step s (.task i) { s with crashed := some .negativeWaitGroupCounter }
  | taskExit (s : System DepositNote) (i : Nat) (t : Task DepositNote) (r : ScannerRef)
      (hc : s.crashed = none) (ht : s.tasks[i]? = some t) (hpc : t.pc = .receiving)
      (hscan : t.scan = some r) (hstream : s.streams.getD r [] = []) (hwg : s.wg ≠ 0) :
      Step s (.task i)
        { s with tasks := s.tasks.set i { t with pc := .exited }, wg := s.wg - 1 }
  | taskRecv (s : System DepositNote) (i : Nat) (t : Task DepositNote) (r : ScannerRef)
      (dv : DepositNote) (rest : List DepositNote)
      (hc : s.crashed = none) (ht : s.tasks[i]? = some t) (hpc : t.pc = .receiving)
      (hscan : t.scan = some r) (hstream : s.streams.getD r [] = dv :: rest) :
      Step s (.task i)
        { s with
          streams := s.streams.set r rest
          tasks := s.tasks.set i { t with pc := .sending dv } }
  | taskSendPanic (s : System DepositNote) (i : Nat) (t : Task DepositNote) (dv : DepositNote)
      (hc : s.crashed = none) (ht : s.tasks[i]? = some t) (hpc : t.pc = .sending dv)
      (hcl : s.m.outChan.closed = true) :
      Step s (.task i) { s with crashed := some .sendOnClosedChannel }
  | taskSend (s : System DepositNote) (i : Nat) (t : Task DepositNote) (dv : DepositNote)
      (hc : s.crashed = none) (ht : s.tasks[i]? = some t) (hpc : t.pc = .sending dv)
      (hcl : s.m.outChan.closed = false) (hroom : s.m.outChan.buf.length < s.m.outChan.cap) :
      Step s (.task i)
        { s with
          m := { s.m with outChan := { s.m.outChan with buf := s.m.outChan.buf ++ [dv] } }
          sent := s.sent ++ [(t.scan, dv)]
          tasks := s.tasks.set i { t with pc := .receiving } }
  | consume (s : System DepositNote) (dv : DepositNote) (rest : List DepositNote)
      (hc : s.crashed = none) (hbuf : s.m.outChan.buf = dv :: rest) :
      Step s .consume
        { s with
          m := { s.m with outChan := { s.m.outChan with buf := rest } }
          consumed := s.consumed ++ [dv] }
  | callShutdown (s : System DepositNote) (hc : s.crashed = none) :
      Step s .callShutdown { s with shutdowns := s.shutdowns ++ [.closeQuit] }
  | closeQuitPanic (s : System DepositNote) (j : Nat) (hc : s.crashed = none)
      (hj : s.shutdowns[j]? = some .closeQuit) (hcl : s.m.quit.closed = true) :
      Step s (.shutdown j)
        { s with m := { s.m with quit := s.m.quit.close }, crashed := some .closeOfClosedChannel }
  | closeQuit (s : System DepositNote) (j : Nat) (hc : s.crashed = none)
      (hj : s.shutdowns[j]? = some .closeQuit) (hcl : s.m.quit.closed = false) :
      Step s (.shutdown j)
        { s with
          m := { s.m with quit := s.m.quit.close }
          shutdowns := s.shutdowns.set j .closeOutChan }
  | closeOutPanic (s : System DepositNote) (j : Nat) (hc : s.crashed = none)
      (hj : s.shutdowns[j]? = some .closeOutChan) (hcl : s.m.outChan.closed = true) :
      Step s (.shutdown j)
        { s with
          m := { s.m with outChan := s.m.outChan.close }
          crashed := some .closeOfClosedChannel }
  | closeOut (s : System DepositNote) (j : Nat) (hc : s.crashed = none)
      (hj : s.shutdowns[j]? = some .closeOutChan) (hcl : s.m.outChan.closed = false) :
      Step s (.shutdown j)
        { s with
          m := { s.m with outChan := s.m.outChan.close }
          shutdowns := s.shutdowns.set j .waitDone }
  | waitDone (s : System DepositNote) (j : Nat) (hc : s.crashed = none)
      (hj : s.shutdowns[j]? = some .waitDone) (hcl : s.m.done.closed = true) :
      Step s (.shutdown j) { s with shutdowns := s.shutdowns.set j .returned }

/-- The registry invariant: one entry per key, the count is the number of
entries, and no entry holds the nil scanner. -/
def RegistryInv (m : Multiplexer DepositNote) : Prop :=
  m.scannerMap.keys.Nodup ∧ m.scannerCount = m.scannerMap.length ∧
    ∀ e ∈ m.scannerMap, e.2 ≠ none

/-- Whether `Multiplex` has returned. -/
def MultiplexPc.isReturned : MultiplexPc → Bool
  | .returned _ => true
  | _ => false

/-- What holds all along a run without `Shutdown`, from a registry without nil
scanners: no panic, `outChan` open with room for at least one value, `done`
closed exactly when `Multiplex` has returned, and then exactly once. -/
structure LiveInv (s : System DepositNote) : Prop where
  noCrash : s.crashed = none
  noShutdown : s.shutdowns = []
  outOpen : s.m.outChan.closed = false
  room : 0 < s.m.outChan.cap
  doneClosed : s.m.done.closed = s.multiplex.isReturned
  doneCloses : s.m.done.closes = if s.multiplex.isReturned then 1 else 0
  scansT : ∀ t ∈ s.tasks, t.scan ≠ none
  scansP : ∀ e ∈ s.multiplex.pending, e.2 ≠ none
  result : ∀ err, s.multiplex = .returned err → err = none

/-- Whether the `Shutdown` call has closed `quit` and is about to close `outChan`. -/
def ShutdownPc.atCloseOut : ShutdownPc → Nat
  | .closeOutChan => 1
  | _ => 0

/-- Whether the `Shutdown` call has executed its `close(m.outChan)`. -/
def ShutdownPc.pastCloseOut : ShutdownPc → Nat
  | .waitDone => 1
  | .returned => 1
  | _ => 0

/-- The `Shutdown` invariant: `close(m.outChan)` was executed at most once;
and while the program runs, it was executed once per `Shutdown` call that is
past it, at most one call has got past `close(m.quit)`, and then `quit` is
closed. -/
structure ShutInv (s : System DepositNote) : Prop where
  once : s.m.outChan.closes ≤ 1
  closes : s.crashed = none →
    s.m.outChan.closes = (s.shutdowns.map ShutdownPc.pastCloseOut).sum
  single : s.crashed = none →
    (s.shutdowns.map ShutdownPc.atCloseOut).sum +
      (s.shutdowns.map ShutdownPc.pastCloseOut).sum ≤ 1
  quitClosed : s.crashed = none →
    0 < (s.shutdowns.map ShutdownPc.atCloseOut).sum +
      (s.shutdowns.map ShutdownPc.pastCloseOut).sum → s.m.quit.closed = true

/-- What holds along a run that keeps the caller's side of `Shutdown`: once
`Shutdown` was called the system is quiescent, and `outChan` is only closed by
a `Shutdown` call. -/
structure QuietInv (s : System DepositNote) : Prop where
  quiet : s.shutdowns ≠ [] → s.quiescent = true
  closer : s.m.outChan.closed = true → s.shutdowns ≠ []
  scansT : ∀ t ∈ s.tasks, t.scan ∈ s.m.scannerMap.map Prod.snd
  scansP : ∀ e ∈ s.multiplex.pending, e ∈ s.m.scannerMap

/-! ## Facts about `ScannerMap` -/

theorem ScannerMap.lookup_eq_none_iff (sm : ScannerMap) (k : String) :
    sm.lookup k = none ↔ k ∉ sm.keys := by
  induction sm with
  | nil => simp [ScannerMap.lookup, ScannerMap.keys]
  | cons e rest ih =>
    obtain ⟨k', v'⟩ := e
    by_cases hk : k' = k
    · simp [ScannerMap.lookup, ScannerMap.keys, hk]
    · have hk' : ¬ k = k' := fun h => hk h.symm
      simpa [ScannerMap.lookup, ScannerMap.keys, hk, hk'] using ih

theorem ScannerMap.store_of_lookup_none (sm : ScannerMap) (k : String) (v : Scanner)
    (h : sm.lookup k = none) : sm.store k v = sm ++ [(k, v)] := by
  induction sm with
  | nil => rfl
  | cons e rest ih =>
    obtain ⟨k', v'⟩ := e
    by_cases hk : k' = k
    · simp [ScannerMap.lookup, hk] at h
    · simp only [ScannerMap.lookup, hk, if_false] at h
      simp [ScannerMap.store, hk, ih h]

theorem ScannerMap.lookup_append_single (sm : ScannerMap) (k c : String) (v : Scanner) :
    ScannerMap.lookup (sm ++ [(k, v)]) c =
      match sm.lookup c with
      | some s => some s
      | none => if k = c then some v else none := by
  induction sm with
  | nil => simp [ScannerMap.lookup]
  | cons e rest ih =>
    obtain ⟨k', v'⟩ := e
    by_cases hk : k' = c
    · simp [ScannerMap.lookup, hk]
    · simp [ScannerMap.lookup, hk, ih]

theorem ScannerMap.mem_of_lookup (sm : ScannerMap) (k : String) (v : Scanner)
    (h : sm.lookup k = some v) : (k, v) ∈ sm := by
  induction sm with
  | nil => simp [ScannerMap.lookup] at h
  | cons e rest ih =>
    obtain ⟨k', v'⟩ := e
    by_cases hk : k' = k
    · simp [ScannerMap.lookup, hk] at h
      simp [hk, h]
    · simp only [ScannerMap.lookup, hk, if_false] at h
      exact List.mem_cons_of_mem _ (ih h)

theorem RegistryInv_New : RegistryInv (NewMultiplexer : Multiplexer DepositNote) := by
  simp [RegistryInv, NewMultiplexer, ScannerMap.keys]

theorem RegistryInv_AddScanner (m : Multiplexer DepositNote) (scanner : Scanner)
    (coinType : String) (h : RegistryInv m) : RegistryInv (AddScanner m scanner coinType).1 := by
  obtain ⟨hnd, hcnt, hnil⟩ := h
  unfold AddScanner
  cases scanner with
  | none => exact ⟨hnd, hcnt, hnil⟩
  | some r =>
    cases hl : m.scannerMap.lookup coinType with
    | some s => exact ⟨hnd, hcnt, hnil⟩
    | none =>
      have hk := (ScannerMap.lookup_eq_none_iff _ _).1 hl
      simp only [ScannerMap.store_of_lookup_none _ _ _ hl]
      refine ⟨?_, ?_, ?_⟩
      · simp only [ScannerMap.keys, List.map_append, List.map_cons, List.map_nil]
        exact List.Nodup.append hnd (List.nodup_singleton _)
          (by simpa [ScannerMap.keys] using hk)
      · simp [hcnt]
      · intro e he
        rcases List.mem_append.1 he with he | he
        · exact hnil e he
        · simp at he; subst he; simp

theorem RegistryInv_len (m : Multiplexer DepositNote) (h : RegistryInv m) :
    m.scannerCount = m.scannerMap.len := by
  obtain ⟨hnd, hcnt, -⟩ := h
  rw [ScannerMap.len, hnd.dedup, hcnt, ScannerMap.keys, List.length_map]

theorem applyOp_ok (P : Producers) (w : World DepositNote) (op : Op) (h : RegistryInv w.m) :
    ∃ w' r, applyOp P w op = .ok (w', r) ∧ RegistryInv w'.m ∧
      ∀ c, w'.m.scannerMap.lookup c =
        match w.m.scannerMap.lookup c with
        | some s => some s
        | none => match op, r with
          | .addScanner scanner k, .err none => if k = c then some scanner else none
          | _, _ => none := by
  cases op with
  | addScanner scanner k =>
    refine ⟨_, _, rfl, RegistryInv_AddScanner _ _ _ h, ?_⟩
    intro c
    cases scanner with
    | none => cases hc : w.m.scannerMap.lookup c <;> simp [AddScanner, errorsNew, hc]
    | some r =>
      cases hl : w.m.scannerMap.lookup k with
      | some s => cases hc : w.m.scannerMap.lookup c <;> simp [AddScanner, hc, hl]
      | none =>
        simp only [AddScanner, hl, ScannerMap.store_of_lookup_none _ _ _ hl,
          ScannerMap.lookup_append_single]
  | addScanAddress a k =>
    cases hl : w.m.scannerMap.lookup k with
    | none =>
      refine ⟨w, .err (some (errorsNew "unknown cointype")), ?_, h, ?_⟩
      · simp [applyOp, AddScanAddress, hl]
      · intro c
        cases hc : w.m.scannerMap.lookup c <;> simp
    | some s =>
      cases s with
      | none =>
        exfalso
        exact h.2.2 _ (ScannerMap.mem_of_lookup _ _ _ hl) rfl
      | some r =>
        refine ⟨⟨w.m, w.calls ++ [⟨r, a, k⟩]⟩, .err (P.addScanAddress w.calls r a k), ?_, h, ?_⟩
        · simp [applyOp, AddScanAddress, hl]
        · intro c
          cases hc : w.m.scannerMap.lookup c <;> simp
  | getScanner k =>
    refine ⟨w, _, rfl, h, ?_⟩
    intro c
    cases hc : w.m.scannerMap.lookup c <;> simp
  | getScannerCount =>
    refine ⟨w, _, rfl, h, ?_⟩
    intro c
    cases hc : w.m.scannerMap.lookup c <;> simp

theorem firstRegistered_cons (c : String) (op : Op) (r : Ret) (rest : List (Op × Ret)) :
    firstRegistered c ((op, r) :: rest) =
      match op, r with
      | .addScanner scanner k, .err none => if k = c then scanner else firstRegistered c rest
      | _, _ => firstRegistered c rest := by
  cases op <;> cases r <;> try rfl
  case addScanner.err scanner k e => cases e <;> rfl

theorem runOps_ok (P : Producers) (ops : List Op) (w : World DepositNote)
    (h : RegistryInv w.m) :
    ∃ w' rets, runOps P w ops = .ok (w', rets) ∧ RegistryInv w'.m ∧
      ∀ c, GetScanner w'.m c =
        match w.m.scannerMap.lookup c with
        | some s => s
        | none => firstRegistered c (ops.zip rets) := by
  induction ops generalizing w with
  | nil =>
    refine ⟨w, [], rfl, h, ?_⟩
    intro c
    cases hc : w.m.scannerMap.lookup c <;> simp [GetScanner, hc, firstRegistered]
  | cons op ops ih =>
    obtain ⟨w1, r, h1, hinv1, hlook⟩ := applyOp_ok P w op h
    obtain ⟨w2, rets, h2, hinv2, hget⟩ := ih w1 hinv1
    refine ⟨w2, r :: rets, by simp [runOps, h1, h2], hinv2, ?_⟩
    intro c
    rw [hget c, hlook c, List.zip_cons_cons, firstRegistered_cons]
    cases hc : w.m.scannerMap.lookup c with
    | some s => rfl
    | none =>
      cases op <;> cases r <;> try rfl
      case addScanner.err scanner k e =>
        cases e with
        | some e => rfl
        | none => by_cases hk : k = c <;> simp [hk]

theorem addScanners_count (calls : List (Scanner × String)) (m : Multiplexer DepositNote) :
    (addScanners m calls).1.scannerCount =
      m.scannerCount + (addScanners m calls).2.count none := by
  induction calls generalizing m with
  | nil => simp [addScanners]
  | cons call rest ih =>
    obtain ⟨scanner, coinType⟩ := call
    simp only [addScanners]
    rw [ih]
    cases scanner with
    | none => simp [AddScanner]
    | some r =>
      cases hl : m.scannerMap.lookup coinType with
      | some s => simp [AddScanner, hl]
      | none => simp [AddScanner, hl]; omega

/-! ## Facts about lists -/

theorem sum_map_set {α : Type} (f : α → Nat) (l : List α) (j : Nat) (x z : α)
    (h : l[j]? = some x) : ((l.set j z).map f).sum + f x = (l.map f).sum + f z := by
  induction l generalizing j with
  | nil => simp at h
  | cons y ys ih =>
    cases j with
    | zero =>
      simp at h
      subst h
      simp [List.set]
      omega
    | succ j =>
      simp at h
      have := ih j h
      simp only [List.set, List.map_cons, List.sum_cons]
      omega

theorem getD_set_nil {α : Type} (l : List (List α)) (r r' : Nat) (v : List α) (hr : r < l.length) :
    (l.set r v).getD r' [] = if r = r' then v else l.getD r' [] := by
  by_cases h : r = r'
  · subst h; simp [List.getD_eq_getElem?_getD, hr]
  · simp [List.getD_eq_getElem?_getD, List.getElem?_set, h]

theorem lt_length_of_getD_ne_nil {α : Type} (l : List (List α)) (r : Nat) (h : l.getD r [] ≠ []) :
    r < l.length := by
  by_contra hlt
  exact h (by simp [List.getD_eq_getElem?_getD, List.getElem?_eq_none (Nat.le_of_not_lt hlt)])

theorem index_eq_of_nodup_map {α β : Type} (f : α → β) (l : List α) (h : (l.map f).Nodup)
    (i j : Nat) (a b : α) (hi : l[i]? = some a) (hj : l[j]? = some b) (hab : f a = f b) : i = j := by
  induction l generalizing i j with
  | nil => simp at hi
  | cons y ys ih =>
    simp only [List.map_cons, List.nodup_cons] at h
    cases i with
    | zero =>
      cases j with
      | zero => rfl
      | succ j =>
        simp at hi hj
        subst hi
        exact absurd (List.mem_map.2 ⟨b, List.getElem?_mem hj, hab.symm⟩) h.1
    | succ i =>
      cases j with
      | zero =>
        simp at hi hj
        subst hj
        exact absurd (List.mem_map.2 ⟨a, List.getElem?_mem hi, hab⟩) h.1
      | succ j =>
        simp at hi hj
        rw [ih h.2 i j hi hj]

theorem perm_join_proj {κ ν : Type} [DecidableEq κ] (ks : List κ) (l : List (κ × ν))
    (hnd : ks.Nodup) (hmem : ∀ x ∈ l, x.1 ∈ ks) :
    (l.map Prod.snd).Perm
      ((ks.map (fun k => (l.filter (fun x => decide (x.1 = k))).map Prod.snd)).flatten) := by
  induction ks generalizing l with
  | nil =>
    cases l with
    | nil => simp
    | cons x xs => simpa using hmem x (List.mem_cons_self _ _)
  | cons k ks ih =>
    simp only [List.nodup_cons] at hnd
    simp only [List.map_cons, List.flatten_cons]
    have h1 : (l.map Prod.snd).Perm
        ((l.filter (fun x => decide (x.1 = k))).map Prod.snd ++
          (l.filter (fun x => !decide (x.1 = k))).map Prod.snd) := by
      rw [← List.map_append]
      exact ((List.filter_append_perm _ l).symm).map _
    refine h1.trans (List.Perm.append_left _ ?_)
    have h2 := ih (l.filter (fun x => !decide (x.1 = k))) hnd.2 (by
      intro x hx
      simp only [List.mem_filter, Bool.not_eq_true', decide_eq_false_iff_not] at hx
      rcases List.mem_cons.1 (hmem x hx.1) with h | h
      · exact absurd h hx.2
      · exact h)
    refine h2.trans (List.Perm.of_eq ?_)
    congr 1
    apply List.map_congr_left
    intro k' hk'
    congr 1
    rw [List.filter_filter]
    apply List.filter_congr
    intro x _
    have : k' ≠ k := fun h => hnd.1 (h ▸ hk')
    by_cases hx : x.1 = k'
    · simp [hx, this]
    · simp [hx]

/-! ## Facts about `step` and `run` -/

theorem Step.of_step {s s' : System DepositNote} {a : Action} (h : step s a = some s') :
    Step s a s' := by
  unfold step at h
  split at h
  · cases h
  · rename_i hcr
    have hc : s.crashed = none := by
      cases hx : s.crashed with
      | none => rfl
      | some p => simp [hx] at hcr
    cases a with
    | multiplex =>
      change stepMultiplex s = some s' at h
      unfold stepMultiplex at h
      split at h
      · cases h; exact Step.leaveLoop s hc ‹_›
      · cases h; exact Step.spawn s _ _ hc ‹_›
      · split at h
        · cases h; exact Step.waitPass s hc ‹_› ‹_›
        · cases h
      · split at h
        · cases h; exact Step.closeDonePanic s hc ‹_› ‹_›
        · cases h; exact Step.closeDone s hc ‹_› (by simpa using ‹¬ s.m.done.closed = true›)
      · cases h
    | task i =>
      change stepTask s i = some s' at h
      unfold stepTask at h
      split at h
      · cases h
      · rename_i t ht
        split at h
        · cases h
        · rename_i hpc
          split at h
          · cases h; exact Step.taskNil s i t hc ht hpc ‹_›
          · rename_i r hscan
            split at h
            · rename_i hstream
              split at h
              · cases h; exact Step.taskExitPanic s i t r hc ht hpc hscan hstream ‹_›
              · cases h; exact Step.taskExit s i t r hc ht hpc hscan hstream ‹_›
            · rename_i dv rest hstream
              cases h; exact Step.taskRecv s i t r dv rest hc ht hpc hscan hstream
        · rename_i dv hpc
          split at h
          · cases h; exact Step.taskSendPanic s i t dv hc ht hpc ‹_›
          · split at h
            · cases h
              exact Step.taskSend s i t dv hc ht hpc
                (by simpa using ‹¬ s.m.outChan.closed = true›) ‹_›
            · cases h
    | consume =>
      change stepConsume s = some s' at h
      unfold stepConsume at h
      split at h
      · cases h
      · cases h; exact Step.consume s _ _ hc ‹_›
    | callShutdown =>
      change some _ = some s' at h
      cases h; exact Step.callShutdown s hc
    | shutdown j =>
      change stepShutdown s j = some s' at h
      unfold stepShutdown at h
      split at h
      · cases h
      · split at h
        · cases h; exact Step.closeQuitPanic s j hc ‹_› ‹_›
        · cases h
          exact Step.closeQuit s j hc ‹_› (by simpa using ‹¬ s.m.quit.closed = true›)
      · split at h
        · cases h; exact Step.closeOutPanic s j hc ‹_› ‹_›
        · cases h
          exact Step.closeOut s j hc ‹_› (by simpa using ‹¬ s.m.outChan.closed = true›)
      · split at h
        · cases h; exact Step.waitDone s j hc ‹_› ‹_›
        · cases h
      · cases h

/-- A property kept by every step holds all along a run. -/
theorem run_induction (I : System DepositNote → Prop)
    (hstep : ∀ s a s', I s → Step s a s' → I s')
    (s : System DepositNote) (acts : List Action) (s' : System DepositNote)
    (h0 : I s) (hrun : run s acts = some s') : I s' := by
  induction acts generalizing s with
  | nil => simp [run] at hrun; exact hrun ▸ h0
  | cons a as ih =>
    simp only [run] at hrun
    cases hs : step s a with
    | none => simp [hs] at hrun
    | some s1 =>
      simp only [hs] at hrun
      exact ih s1 (hstep s a s1 h0 (Step.of_step hs)) hrun

/-- No step of `Multiplex`, its goroutines, the consumer or `Shutdown` writes
the registry. -/
theorem Step.registry {s s' : System DepositNote} {a : Action} (hs : Step s a s') :
    s'.m.scannerMap = s.m.scannerMap ∧ s'.m.scannerCount = s.m.scannerCount := by
  cases hs <;> exact ⟨rfl, rfl⟩

theorem run_registry {s s' : System DepositNote} {acts : List Action}
    (hrun : run s acts = some s') :
    s'.m.scannerMap = s.m.scannerMap ∧ s'.m.scannerCount = s.m.scannerCount :=
  run_induction
    (fun x => x.m.scannerMap = s.m.scannerMap ∧ x.m.scannerCount = s.m.scannerCount)
    (fun _ _ _ hI hS => ⟨hS.registry.1.trans hI.1, hS.registry.2.trans hI.2⟩)
    s acts s' ⟨rfl, rfl⟩ hrun

/-! ## The registry claims -/

/-- C1. When `coinType` is already registered to `s1`, `AddScanner` with a
non-nil scanner returns the "already exists" error and changes nothing: the
multiplexer is the same, so are its keys, `GetScanner coinType` is still `s1`
and the count is the same. -/
theorem AddScanner_duplicate (m : Multiplexer DepositNote) (coinType : String)
    (s1 : Scanner) (r2 : ScannerRef) (h : m.scannerMap.lookup coinType = some s1) :
    (AddScanner m (some r2) coinType).2 =
        some ⟨"scanner of coinType " ++ coinType ++ " already exists"⟩ ∧
      (AddScanner m (some r2) coinType).1 = m ∧
      (AddScanner m (some r2) coinType).1.scannerMap.keys = m.scannerMap.keys ∧
      GetScanner (AddScanner m (some r2) coinType).1 coinType = s1 ∧
      GetScannerCount (AddScanner m (some r2) coinType).1 = GetScannerCount m := by
  simp [AddScanner, h, GetScanner]

/-- C1, a concrete case: "btc" is registered to scanner 1 and scanner 2 is
offered for "btc". -/
theorem AddScanner_duplicate_witness :
    (registered Nat [(some 1, "btc")]).scannerMap.lookup "btc" = some (some 1) ∧
      (AddScanner (registered Nat [(some 1, "btc")]) (some 2) "btc").2 =
        some (errorsNew "scanner of coinType btc already exists") ∧
      ((AddScanner (registered Nat [(some 1, "btc")]) (some 2) "btc").2 =
          some ⟨"scanner of coinType " ++ "btc" ++ " already exists"⟩ ∧
        (AddScanner (registered Nat [(some 1, "btc")]) (some 2) "btc").1 =
          registered Nat [(some 1, "btc")] ∧
        (AddScanner (registered Nat [(some 1, "btc")]) (some 2) "btc").1.scannerMap.keys =
          (registered Nat [(some 1, "btc")]).scannerMap.keys ∧
        GetScanner (AddScanner (registered Nat [(some 1, "btc")]) (some 2) "btc").1 "btc" =
          some 1 ∧
        GetScannerCount (AddScanner (registered Nat [(some 1, "btc")]) (some 2) "btc").1 =
          GetScannerCount (registered Nat [(some 1, "btc")])) :=
  ⟨by decide, by decide,
    AddScanner_duplicate (registered Nat [(some 1, "btc")]) "btc" (some 1) 2 (by decide)⟩

/-- C2. `AddScanAddress` for a coin type that is not a key of the registry
returns the "unknown cointype" error and leaves the world as it was: no
producer is called (the call log is the same) and the registry and the count
are the same. -/
theorem AddScanAddress_unknown (P : Producers) (w : World DepositNote)
    (depositAddr coinType : String) (h : coinType ∉ w.m.scannerMap.keys) :
    AddScanAddress P w depositAddr coinType = .ok (w, some (errorsNew "unknown cointype")) := by
  simp [AddScanAddress, (ScannerMap.lookup_eq_none_iff _ _).2 h]

/-- C2, a concrete case: only "btc" is registered and an address is added for
"eth". -/
theorem AddScanAddress_unknown_witness :
    "eth" ∉ (registered Nat [(some 1, "btc")]).scannerMap.keys ∧
      AddScanAddress ⟨fun _ _ _ _ => none⟩ ⟨registered Nat [(some 1, "btc")], []⟩ "addr" "eth" =
        .ok (⟨registered Nat [(some 1, "btc")], []⟩, some (errorsNew "unknown cointype")) :=
  ⟨by decide,
    AddScanAddress_unknown ⟨fun _ _ _ _ => none⟩ ⟨registered Nat [(some 1, "btc")], []⟩
      "addr" "eth" (by decide)⟩

/-- C4. After any sequence of `AddScanner` calls on a fresh multiplexer,
`GetScannerCount` is the number of calls that returned nil; the other calls
are the rejected ones. -/
theorem GetScannerCount_addScanners (calls : List (Scanner × String)) :
    GetScannerCount (addScanners (NewMultiplexer : Multiplexer DepositNote) calls).1 =
        (addScanners (NewMultiplexer : Multiplexer DepositNote) calls).2.count none ∧
      (addScanners (NewMultiplexer : Multiplexer DepositNote) calls).2.length = calls.length := by
  constructor
  · rw [GetScannerCount, addScanners_count]
    simp [NewMultiplexer]
  · generalize (NewMultiplexer : Multiplexer DepositNote) = m
    induction calls generalizing m with
    | nil => rfl
    | cons call rest ih =>
      obtain ⟨scanner, coinType⟩ := call
      simp [addScanners, ih]

/-- C5. When `coinType` is registered to producer `p`, `AddScanAddress` makes
exactly one producer call, to `p` with the same address and coin type, and
returns what `p` returned; the multiplexer (registry and count) is the same. -/
theorem AddScanAddress_delegates (P : Producers) (w : World DepositNote)
    (depositAddr coinType : String) (p : ScannerRef)
    (h : w.m.scannerMap.lookup coinType = some (some p)) :
    AddScanAddress P w depositAddr coinType =
      .ok (⟨w.m, w.calls ++ [⟨p, depositAddr, coinType⟩]⟩,
           P.addScanAddress w.calls p depositAddr coinType) := by
  simp [AddScanAddress, h]

/-- C5, a concrete case: "btc" is registered to producer 1, which rejects the
address. -/
theorem AddScanAddress_delegates_witness :
    (registered Nat [(some 1, "btc")]).scannerMap.lookup "btc" = some (some 1) ∧
      AddScanAddress ⟨fun _ _ _ _ => some (errorsNew "rejected")⟩
          ⟨registered Nat [(some 1, "btc")], []⟩ "addr" "btc" =
        .ok (⟨registered Nat [(some 1, "btc")], [] ++ [⟨1, "addr", "btc"⟩]⟩,
          some (errorsNew "rejected")) :=
  ⟨by decide,
    AddScanAddress_delegates ⟨fun _ _ _ _ => some (errorsNew "rejected")⟩
      ⟨registered Nat [(some 1, "btc")], []⟩ "addr" "btc" 1 (by decide)⟩

/-- C7. Every sequence of registry calls on a fresh multiplexer runs to its end,
and in the state it reaches `scannerCount` is the number of distinct keys of
`scannerMap`. -/
theorem scannerCount_eq_len (P : Producers) (ops : List Op) :
    ∃ w rets, runOps P (freshWorld : World DepositNote) ops = .ok (w, rets) ∧
      w.m.scannerCount = w.m.scannerMap.len := by
  obtain ⟨w, rets, h, hinv, -⟩ := runOps_ok P ops (freshWorld : World DepositNote) RegistryInv_New
  exact ⟨w, rets, h, RegistryInv_len _ hinv⟩

/-- C9. `AddScanner` with the nil scanner returns the "nil scanner" error and
leaves the multiplexer, hence its map and count, as it was. -/
theorem AddScanner_nil (m : Multiplexer DepositNote) (coinType : String) :
    AddScanner m none coinType = (m, some (errorsNew "nil scanner")) := rfl

/-- C10. After any sequence of registry calls on a fresh multiplexer,
`GetScanner c` is the scanner passed to the first `AddScanner` call for `c`
that returned nil, or nil if there is none; once `GetScanner c` is a scanner
`r`, it is still `r` after any further registry calls; and no step of
`Multiplex`, its goroutines, the consumer or `Shutdown` changes what
`GetScanner c` returns. -/
theorem GetScanner_firstRegistered (P : Producers) (ops : List Op) (c : String) :
    ∃ w rets, runOps P (freshWorld : World DepositNote) ops = .ok (w, rets) ∧
      GetScanner w.m c = firstRegistered c (ops.zip rets) ∧
      (∀ (more : List Op) (r : ScannerRef), GetScanner w.m c = some r →
        ∃ w' rets', runOps P w more = .ok (w', rets') ∧ GetScanner w'.m c = some r) ∧
      ∀ (order : List (String × Scanner)) (streams : List (List DepositNote))
        (acts : List Action) (s : System DepositNote),
        run (System.init w.m order streams) acts = some s →
          GetScanner s.m c = GetScanner w.m c := by
  obtain ⟨w, rets, h, hinv, hget⟩ :=
    runOps_ok P ops (freshWorld : World DepositNote) RegistryInv_New
  refine ⟨w, rets, h, ?_, ?_, ?_⟩
  · simpa [freshWorld, NewMultiplexer, ScannerMap.lookup] using hget c
  · intro more r hr
    obtain ⟨w', rets', h', -, hget'⟩ := runOps_ok P more w hinv
    refine ⟨w', rets', h', ?_⟩
    rw [hget' c]
    cases hc : w.m.scannerMap.lookup c with
    | none => simp [GetScanner, hc] at hr
    | some s => simpa [GetScanner, hc] using hr
  · intro order streams acts s hrun
    have := (run_registry hrun).1
    simp only [GetScanner, this, System.init]

/-! ## Invariants of the running system -/

theorem TaskPc.alive_receiving : (TaskPc.receiving : TaskPc DepositNote).alive = 1 := rfl

theorem TaskPc.alive_sending (dv : DepositNote) : (TaskPc.sending dv).alive = 1 := rfl

theorem TaskPc.alive_exited : (TaskPc.exited : TaskPc DepositNote).alive = 0 := rfl

theorem TaskPc.weight_receiving : (TaskPc.receiving : TaskPc DepositNote).weight = 1 := rfl

theorem TaskPc.weight_sending (dv : DepositNote) : (TaskPc.sending dv).weight = 3 := rfl

theorem TaskPc.weight_exited : (TaskPc.exited : TaskPc DepositNote).weight = 0 := rfl

theorem WgInv_step {s s' : System DepositNote} {a : Action} (h : WgInv s)
    (hs : Step s a s') : WgInv s' := by
  obtain ⟨hcount, hzero⟩ := h
  cases hs with
  | taskExit i t r hc ht hpc hscan hstream hwg =>
    have := sum_map_set (fun t => t.pc.alive) s.tasks i t { t with pc := .exited } ht
    constructor
    · simp only [hpc, TaskPc.alive_receiving, TaskPc.alive_sending, TaskPc.alive_exited] at this ⊢
      omega
    · intro hp
      have := hzero hp
      simp only
      omega
  | taskRecv i t r dv rest hc ht hpc hscan hstream =>
    have := sum_map_set (fun t => t.pc.alive) s.tasks i t { t with pc := .sending dv } ht
    constructor
    · simp only [hpc, TaskPc.alive_receiving, TaskPc.alive_sending, TaskPc.alive_exited] at this ⊢
      omega
    · exact hzero
  | taskSend i t dv hc ht hpc hcl hroom =>
    have := sum_map_set (fun t => t.pc.alive) s.tasks i t { t with pc := .receiving } ht
    constructor
    · simp only [hpc, TaskPc.alive_receiving, TaskPc.alive_sending, TaskPc.alive_exited] at this ⊢
      omega
    · exact hzero
  | spawn e rest hc hpc =>
    constructor
    · simp [hcount, TaskPc.alive]
    · simp [MultiplexPc.pastWait]
  | waitPass hc hpc hwg => exact ⟨hcount, fun _ => hwg⟩
  | closeDone hc hpc hcl =>
    exact ⟨hcount, fun _ => hzero (by simp [hpc, MultiplexPc.pastWait])⟩
  | leaveLoop hc hpc => exact ⟨hcount, by simp [MultiplexPc.pastWait]⟩
  | _ => exact ⟨hcount, hzero⟩

theorem map_scan_set (l : List (Task DepositNote)) (i : Nat) (t : Task DepositNote)
    (pc : TaskPc DepositNote) (h : l[i]? = some t) :
    (l.set i { t with pc := pc }).map (fun t => t.scan) = l.map (fun t => t.scan) := by
  induction l generalizing i with
  | nil => simp at h
  | cons y ys ih =>
    cases i with
    | zero =>
      simp at h
      subst h
      simp [List.set]
    | succ i =>
      simp at h
      simp [List.set, ih i h]

theorem outputOf_append (s : System DepositNote) (sent : List (Scanner × DepositNote))
    (tag k : Scanner) (dv : DepositNote) :
    System.outputOf { s with sent := sent ++ [(tag, dv)] } k =
      System.outputOf { s with sent := sent } k ++ (if tag = k then [dv] else []) := by
  by_cases h : tag = k <;> simp [System.outputOf, List.filter_append, List.filter_cons, h]

theorem FlowInv_step {vals : List Scanner} {S0 : List (List DepositNote)}
    {s s' : System DepositNote} {a : Action} (hnd : vals.Nodup) (h : FlowInv vals S0 s)
    (hs : Step s a s') : FlowInv vals S0 s' := by
  have hnd' : (s.tasks.map (fun t => t.scan) ++ s.multiplex.pending.map Prod.snd).Nodup :=
    h.scans ▸ hnd
  obtain ⟨hndT, -, hdisj⟩ := List.nodup_append.1 hnd'
  cases hs with
  | leaveLoop hc hpc =>
    have h1 := h.scans
    have h3 := h.fresh
    rw [hpc] at h1 h3
    exact ⟨h1, h.split, h3, h.tags, h.drained, h.holders, h.fifo⟩
  | waitPass hc hpc hwg =>
    have h1 := h.scans
    have h3 := h.fresh
    rw [hpc] at h1 h3
    exact ⟨h1, h.split, h3, h.tags, h.drained, h.holders, h.fifo⟩
  | closeDonePanic hc hpc hcl =>
    exact ⟨h.scans, h.split, h.fresh, h.tags, h.drained, h.holders, h.fifo⟩
  | closeDone hc hpc hcl =>
    have h1 := h.scans
    have h3 := h.fresh
    rw [hpc] at h1 h3
    exact ⟨h1, h.split, h3, h.tags, h.drained, h.holders, h.fifo⟩
  | taskNil i t hc ht hpc hscan =>
    exact ⟨h.scans, h.split, h.fresh, h.tags, h.drained, h.holders, h.fifo⟩
  | taskExitPanic i t r hc ht hpc hscan hstream hwg =>
    exact ⟨h.scans, h.split, h.fresh, h.tags, h.drained, h.holders, h.fifo⟩
  | taskSendPanic i t dv hc ht hpc hcl =>
    exact ⟨h.scans, h.split, h.fresh, h.tags, h.drained, h.holders, h.fifo⟩
  | callShutdown hc =>
    exact ⟨h.scans, h.split, h.fresh, h.tags, h.drained, h.holders, h.fifo⟩
  | closeQuitPanic j hc hj hcl =>
    exact ⟨h.scans, h.split, h.fresh, h.tags, h.drained, h.holders, h.fifo⟩
  | closeQuit j hc hj hcl =>
    exact ⟨h.scans, h.split, h.fresh, h.tags, h.drained, h.holders, h.fifo⟩
  | closeOutPanic j hc hj hcl =>
    exact ⟨h.scans, h.split, h.fresh, h.tags, h.drained, h.holders, h.fifo⟩
  | closeOut j hc hj hcl =>
    exact ⟨h.scans, h.split, h.fresh, h.tags, h.drained, h.holders, h.fifo⟩
  | waitDone j hc hj hcl =>
    exact ⟨h.scans, h.split, h.fresh, h.tags, h.drained, h.holders, h.fifo⟩
  | consume dv rest hc hbuf =>
    refine ⟨h.scans, h.split, h.fresh, h.tags, h.drained, h.holders, ?_⟩
    have := h.fifo
    rw [hbuf] at this
    simpa [System.output] using this
  | spawn e rest hc hpc =>
    have h1 := h.scans
    have h3 := h.fresh
    rw [hpc] at h1 h3
    simp only [MultiplexPc.pending] at h1 h3
    refine ⟨?_, ?_, ?_, ?_, ?_, ?_, h.fifo⟩
    · simpa [MultiplexPc.pending] using h1
    · intro i t r hi hr
      by_cases hlt : i < s.tasks.length
      · simp only [List.getElem?_append_left hlt] at hi
        exact h.split i t r hi hr
      · simp only [List.getElem?_append_right (Nat.le_of_not_lt hlt)] at hi
        have ht : t = ⟨e.2, .receiving⟩ := by
          rcases List.getElem?_mem hi with hm
          simpa using hm
        subst ht
        obtain ⟨ha, hb⟩ := h3 e (List.mem_cons_self _ _) r hr
        show S0.getD r [] = System.outputOf s (some r) ++ [] ++ s.streams.getD r []
        rw [hb, ha]
        rfl
    · intro e' he' r hr
      exact h3 e' (List.mem_cons_of_mem _ he') r hr
    · intro x hx
      obtain ⟨ha, hb⟩ := h.tags x hx
      exact ⟨by simp only [List.map_append, List.mem_append]; exact Or.inl ha, hb⟩
    · intro t ht hex
      rcases List.mem_append.1 ht with ht | ht
      · exact h.drained t ht hex
      · simp at ht; subst ht; simp at hex
    · intro t ht hsend
      rcases List.mem_append.1 ht with ht | ht
      · exact h.holders t ht hsend
      · simp at ht; subst ht; simp [TaskPc.isSending] at hsend
  | taskExit i t r hc ht hpc hscan hstream hwg =>
    refine ⟨?_, ?_, h.fresh, ?_, ?_, ?_, h.fifo⟩
    · rw [← h.scans]
      exact congrArg (· ++ _) (map_scan_set _ _ _ _ ht)
    · intro j t' r' hj hr'
      simp only [List.getElem?_set] at hj
      split at hj
      · split at hj
        · cases hj
          have := h.split i t r' ht hr'
          rw [hpc] at this
          exact this
        · cases hj
      · exact h.split j t' r' hj hr'
    · intro x hx
      obtain ⟨ha, hb⟩ := h.tags x hx
      exact ⟨by simpa only [map_scan_set _ _ _ _ ht] using ha, hb⟩
    · intro t' ht' hex
      rcases List.mem_or_eq_of_mem_set ht' with ht' | ht'
      · exact h.drained t' ht' hex
      · subst ht'
        simpa [streamOf, hscan] using hstream
    · intro t' ht' hsend
      rcases List.mem_or_eq_of_mem_set ht' with ht' | ht'
      · exact h.holders t' ht' hsend
      · subst ht'; simp [TaskPc.isSending] at hsend
  | taskRecv i t r dv rest hc ht hpc hscan hstream =>
    have hr : r < s.streams.length :=
      lt_length_of_getD_ne_nil _ _ (by rw [hstream]; exact List.cons_ne_nil _ _)
    have hmemT : some r ∈ s.tasks.map (fun t => t.scan) :=
      List.mem_map.2 ⟨t, List.getElem?_mem ht, hscan⟩
    refine ⟨?_, ?_, ?_, ?_, ?_, ?_, h.fifo⟩
    · rw [← h.scans]
      exact congrArg (· ++ _) (map_scan_set _ _ _ _ ht)
    · intro j t' r' hj hr'
      simp only [List.getElem?_set] at hj
      split at hj
      · split at hj
        · cases hj
          have hrr : r = r' := by
            have : some r = some r' := hscan.symm.trans hr'
            exact Option.some.inj this
          subst hrr
          have := h.split i t r ht hscan
          rw [hpc, hstream] at this
          show S0.getD r [] = System.outputOf s (some r) ++ [dv] ++ (s.streams.set r rest).getD r []
          rw [getD_set_nil _ _ _ _ hr, if_pos rfl, this]
          simp [TaskPc.held]
        · cases hj
      · rename_i hij
        have hne : r ≠ r' := by
          intro hrr
          exact hij (index_eq_of_nodup_map (fun t => t.scan) s.tasks hndT i j t t' ht hj
            (by show t.scan = t'.scan; rw [hscan, hr', hrr]))
        show S0.getD r' [] = System.outputOf s (some r') ++ t'.pc.held ++ (s.streams.set r rest).getD r' []
        rw [getD_set_nil _ _ _ _ hr, if_neg hne]
        exact h.split j t' r' hj hr'
    · intro e he r' hr'
      have hne : r ≠ r' := by
        intro hrr
        exact hdisj hmemT (List.mem_map.2 ⟨e, he, by rw [hr', hrr]⟩)
      show S0.getD r' [] = (s.streams.set r rest).getD r' [] ∧ System.outputOf s (some r') = []
      rw [getD_set_nil _ _ _ _ hr, if_neg hne]
      exact h.fresh e he r' hr'
    · intro x hx
      obtain ⟨ha, hb⟩ := h.tags x hx
      exact ⟨by simpa only [map_scan_set _ _ _ _ ht] using ha, hb⟩
    · intro t' ht' hex
      rcases List.mem_or_eq_of_mem_set ht' with ht' | ht'
      · have := h.drained t' ht' hex
        cases hsc : t'.scan with
        | none => rfl
        | some r' =>
          rw [hsc] at this
          have hne : r ≠ r' := by
            intro hrr
            subst hrr
            simp only [streamOf] at this
            rw [this] at hstream
            cases hstream
          show (s.streams.set r rest).getD r' [] = []
          rw [getD_set_nil _ _ _ _ hr, if_neg hne]
          exact this
      · subst ht'; cases hex
    · intro t' ht' hsend
      rcases List.mem_or_eq_of_mem_set ht' with ht' | ht'
      · exact h.holders t' ht' hsend
      · subst ht'; simp [hscan]
  | taskSend i t dv hc ht hpc hcl hroom =>
    have hmemT : t.scan ∈ s.tasks.map (fun t => t.scan) :=
      List.mem_map.2 ⟨t, List.getElem?_mem ht, rfl⟩
    refine ⟨?_, ?_, ?_, ?_, ?_, ?_, ?_⟩
    · rw [← h.scans]
      exact congrArg (· ++ _) (map_scan_set _ _ _ _ ht)
    · intro j t' r' hj hr'
      simp only [List.getElem?_set] at hj
      split at hj
      · split at hj
        · cases hj
          have := h.split i t r' ht hr'
          rw [hpc] at this
          have hts : t.scan = some r' := hr'
          show S0.getD r' [] =
            System.outputOf { s with sent := s.sent ++ [(t.scan, dv)] } (some r') ++ [] ++
              s.streams.getD r' []
          rw [outputOf_append, if_pos hts, this]
          simp [TaskPc.held, System.outputOf]
        · cases hj
      · rename_i hij
        have hne : ¬ t.scan = some r' := by
          intro hrr
          exact hij (index_eq_of_nodup_map (fun t => t.scan) s.tasks hndT i j t t' ht hj
            (by show t.scan = t'.scan; rw [hrr, hr']))
        show S0.getD r' [] =
          System.outputOf { s with sent := s.sent ++ [(t.scan, dv)] } (some r') ++ t'.pc.held ++
            s.streams.getD r' []
        rw [outputOf_append, if_neg hne, List.append_nil]
        exact h.split j t' r' hj hr'
    · intro e he r' hr'
      have hne : ¬ t.scan = some r' := by
        intro hrr
        exact hdisj hmemT (List.mem_map.2 ⟨e, he, by rw [hr', hrr]⟩)
      show S0.getD r' [] = s.streams.getD r' [] ∧
        System.outputOf { s with sent := s.sent ++ [(t.scan, dv)] } (some r') = []
      rw [outputOf_append, if_neg hne, List.append_nil]
      exact h.fresh e he r' hr'
    · intro x hx
      simp only [map_scan_set _ _ _ _ ht]
      rcases List.mem_append.1 hx with hx | hx
      · exact h.tags x hx
      · simp at hx
        subst hx
        exact ⟨hmemT, h.holders t (List.getElem?_mem ht) (by rw [hpc]; rfl)⟩
    · intro t' ht' hex
      rcases List.mem_or_eq_of_mem_set ht' with ht' | ht'
      · exact h.drained t' ht' hex
      · subst ht'; cases hex
    · intro t' ht' hsend
      rcases List.mem_or_eq_of_mem_set ht' with ht' | ht'
      · exact h.holders t' ht' hsend
      · subst ht'; simp [TaskPc.isSending] at hsend
    · have := h.fifo
      simp only [System.output, List.map_append, List.map_cons, List.map_nil] at this ⊢
      rw [← this, List.append_assoc]

theorem run_WgInv {s s' : System DepositNote} {acts : List Action} (h : WgInv s)
    (hrun : run s acts = some s') : WgInv s' :=
  run_induction WgInv (fun _ _ _ hI hS => WgInv_step hI hS) s acts s' h hrun

theorem run_FlowInv {vals : List Scanner} {S0 : List (List DepositNote)}
    {s s' : System DepositNote} {acts : List Action} (hnd : vals.Nodup)
    (h : FlowInv vals S0 s) (hrun : run s acts = some s') : FlowInv vals S0 s' :=
  run_induction (FlowInv vals S0) (fun _ _ _ hI hS => FlowInv_step hnd hI hS) s acts s' h hrun

theorem WgInv_init (m : Multiplexer DepositNote) (order : List (String × Scanner))
    (streams : List (List DepositNote)) : WgInv (System.init m order streams) :=
  ⟨rfl, by simp [System.init, MultiplexPc.pastWait]⟩

theorem FlowInv_init (m : Multiplexer DepositNote) (order : List (String × Scanner))
    (streams : List (List DepositNote)) (hbuf : m.outChan.buf = []) :
    FlowInv (order.map Prod.snd) streams (System.init m order streams) where
  scans := by simp [System.init, MultiplexPc.pending]
  split := by intro i t r hi; simp [System.init] at hi
  fresh := by intro e _ r _; exact ⟨rfl, rfl⟩
  tags := by intro x hx; simp [System.init] at hx
  drained := by intro t ht; simp [System.init] at ht
  holders := by intro t ht; simp [System.init] at ht
  fifo := by simp [System.init, System.output, hbuf]

theorem addScanners_channels (calls : List (Scanner × String)) (m : Multiplexer DepositNote) :
    (addScanners m calls).1.outChan = m.outChan ∧ (addScanners m calls).1.quit = m.quit ∧
      (addScanners m calls).1.done = m.done := by
  induction calls generalizing m with
  | nil => exact ⟨rfl, rfl, rfl⟩
  | cons call rest ih =>
    obtain ⟨scanner, coinType⟩ := call
    have h1 : (AddScanner m scanner coinType).1.outChan = m.outChan ∧
        (AddScanner m scanner coinType).1.quit = m.quit ∧
        (AddScanner m scanner coinType).1.done = m.done := by
      unfold AddScanner
      cases scanner with
      | none => exact ⟨rfl, rfl, rfl⟩
      | some r => cases m.scannerMap.lookup coinType <;> exact ⟨rfl, rfl, rfl⟩
    obtain ⟨ha, hb, hc⟩ := ih (AddScanner m scanner coinType).1
    exact ⟨ha.trans h1.1, hb.trans h1.2.1, hc.trans h1.2.2⟩

theorem RegistryInv_addScanners (calls : List (Scanner × String)) (m : Multiplexer DepositNote)
    (h : RegistryInv m) : RegistryInv (addScanners m calls).1 := by
  induction calls generalizing m with
  | nil => exact h
  | cons call rest ih =>
    obtain ⟨scanner, coinType⟩ := call
    exact ih _ (RegistryInv_AddScanner m scanner coinType h)

theorem registered_outChan (calls : List (Scanner × String)) :
    (registered DepositNote calls).outChan = Chan.make 1000 :=
  (addScanners_channels calls NewMultiplexer).1

theorem registered_done (calls : List (Scanner × String)) :
    (registered DepositNote calls).done = Chan.make 1 :=
  (addScanners_channels calls NewMultiplexer).2.2

theorem registered_inv (calls : List (Scanner × String)) :
    RegistryInv (registered DepositNote calls) :=
  RegistryInv_addScanners calls _ RegistryInv_New

/-- Once `Multiplex` has returned, the goroutine of every registered scanner
has sent exactly that scanner's stream, and nothing else was sent. -/
theorem FlowInv_returned {vals : List Scanner} {S0 : List (List DepositNote)}
    {s : System DepositNote} (h : FlowInv vals S0 s) (hw : WgInv s)
    (hret : s.multiplex.pastWait = true) :
    (∀ v ∈ vals, s.outputOf v = streamOf S0 v) ∧ ∀ x ∈ s.sent, x.1 ∈ vals := by
  have hp : s.multiplex.pending = [] := by
    cases hm : s.multiplex <;> simp [hm, MultiplexPc.pastWait, MultiplexPc.pending] at hret ⊢
  have hscans : s.tasks.map (fun t => t.scan) = vals := by
    have := h.scans
    rw [hp] at this
    simpa using this
  have hsum : (s.tasks.map (fun t => t.pc.alive)).sum = 0 := by
    rw [← hw.count]
    exact hw.zero hret
  constructor
  · intro v hv
    cases v with
    | none =>
      show (s.sent.filter (fun x => decide (x.1 = none))).map Prod.snd = []
      rw [List.map_eq_nil_iff, List.filter_eq_nil_iff]
      intro x hx
      simpa using (h.tags x hx).2
    | some r =>
      rw [← hscans] at hv
      obtain ⟨t, ht, hts⟩ := List.mem_map.1 hv
      obtain ⟨i, hi⟩ := List.getElem?_of_mem ht
      have halive : t.pc.alive = 0 := by
        have := List.sum_eq_zero_iff.1 hsum (t.pc.alive) (List.mem_map.2 ⟨t, ht, rfl⟩)
        exact this
      have hex : t.pc = .exited := by
        cases hpc : t.pc <;> simp [hpc, TaskPc.alive] at halive ⊢
      have h1 := h.split i t r hi hts
      have h2 := h.drained t ht hex
      rw [hts] at h2
      simp only [streamOf] at h2 ⊢
      rw [h1, hex, h2]
      simp [TaskPc.held]
  · intro x hx
    rw [← hscans]
    exact (h.tags x hx).1

/-! ## Termination without `Shutdown` -/

theorem le_sum_of_getElem? {α : Type} (f : α → Nat) (l : List α) (i : Nat) (x : α)
    (h : l[i]? = some x) : f x ≤ (l.map f).sum :=
  List.single_le_sum (by simp) _ (List.mem_map.2 ⟨x, List.getElem?_mem h, rfl⟩)

theorem exists_of_sum_ne_zero {α : Type} (f : α → Nat) (l : List α)
    (h : (l.map f).sum ≠ 0) : ∃ (i : Nat) (x : α), l[i]? = some x ∧ f x ≠ 0 := by
  by_contra hno
  apply h
  apply List.sum_eq_zero_iff.2
  intro n hn
  obtain ⟨x, hx, rfl⟩ := List.mem_map.1 hn
  obtain ⟨i, hi⟩ := List.getElem?_of_mem hx
  by_contra hne
  exact hno ⟨i, x, hi, hne⟩

theorem getElem?_of_getD_cons {α : Type} (l : List (List α)) (r : Nat) (dv : α)
    (rest : List α) (h : l.getD r [] = dv :: rest) : l[r]? = some (dv :: rest) := by
  rw [List.getD_eq_getElem?_getD] at h
  cases hr : l[r]? with
  | none => simp [hr] at h
  | some v => simpa [hr] using h

theorem LiveInv_step {s s' : System DepositNote} {a : Action} (h : LiveInv s) (hw : WgInv s)
    (hs : Step s a s') (ha : a ≠ .callShutdown) :
    LiveInv s' ∧ s'.measure < s.measure := by
  cases hs with
  | leaveLoop hc hpc =>
    refine ⟨⟨h.noCrash, h.noShutdown, h.outOpen, h.room, ?_, ?_, h.scansT, ?_, ?_⟩, ?_⟩
    · simpa [hpc, MultiplexPc.isReturned] using h.doneClosed
    · simpa [hpc, MultiplexPc.isReturned] using h.doneCloses
    · simp [MultiplexPc.pending]
    · intro err herr; cases herr
    · simp [System.measure, hpc, MultiplexPc.weight]
  | spawn e rest hc hpc =>
    have hP := h.scansP
    rw [hpc] at hP
    refine ⟨⟨h.noCrash, h.noShutdown, h.outOpen, h.room, ?_, ?_, ?_, ?_, ?_⟩, ?_⟩
    · simpa [hpc, MultiplexPc.isReturned] using h.doneClosed
    · simpa [hpc, MultiplexPc.isReturned] using h.doneCloses
    · intro t ht
      rcases List.mem_append.1 ht with ht | ht
      · exact h.scansT t ht
      · simp at ht; subst ht
        exact hP e (List.mem_cons_self _ _)
    · intro e' he'
      exact hP e' (List.mem_cons_of_mem _ he')
    · intro err herr; cases herr
    · simp [System.measure, hpc, MultiplexPc.weight, TaskPc.weight]
      omega
  | waitPass hc hpc hwg =>
    refine ⟨⟨h.noCrash, h.noShutdown, h.outOpen, h.room, ?_, ?_, h.scansT, ?_, ?_⟩, ?_⟩
    · simpa [hpc, MultiplexPc.isReturned] using h.doneClosed
    · simpa [hpc, MultiplexPc.isReturned] using h.doneCloses
    · simp [MultiplexPc.pending]
    · intro err herr; cases herr
    · simp [System.measure, hpc, MultiplexPc.weight]
  | closeDonePanic hc hpc hcl =>
    have := h.doneClosed
    simp [hpc, MultiplexPc.isReturned, hcl] at this
  | closeDone hc hpc hcl =>
    have hcnt := h.doneCloses
    simp only [hpc, MultiplexPc.isReturned] at hcnt
    refine ⟨⟨h.noCrash, h.noShutdown, h.outOpen, h.room, ?_, ?_, h.scansT, ?_, ?_⟩, ?_⟩
    · simp [Chan.close, MultiplexPc.isReturned]
    · simp [Chan.close, MultiplexPc.isReturned, hcnt]
    · simp [MultiplexPc.pending]
    · intro err herr; cases herr; rfl
    · simp [System.measure, hpc, MultiplexPc.weight]
  | taskNil i t hc ht hpc hscan =>
    exact absurd hscan (h.scansT t (List.getElem?_mem ht))
  | taskExitPanic i t r hc ht hpc hscan hstream hwg =>
    have := le_sum_of_getElem? (fun t => t.pc.alive) s.tasks i t ht
    rw [← hw.count, hwg] at this
    simp [hpc, TaskPc.alive] at this
  | taskExit i t r hc ht hpc hscan hstream hwg =>
    have hsum := sum_map_set (fun t => t.pc.weight) s.tasks i t { t with pc := .exited } ht
    simp only [hpc, TaskPc.weight_receiving, TaskPc.weight_exited] at hsum
    refine ⟨⟨h.noCrash, h.noShutdown, h.outOpen, h.room, h.doneClosed, h.doneCloses, ?_,
      h.scansP, h.result⟩, ?_⟩
    · intro t' ht'
      rcases List.mem_or_eq_of_mem_set ht' with ht' | ht'
      · exact h.scansT t' ht'
      · subst ht'; simp [hscan]
    · simp only [System.measure]
      omega
  | taskRecv i t r dv rest hc ht hpc hscan hstream =>
    have hsum := sum_map_set (fun t => t.pc.weight) s.tasks i t { t with pc := .sending dv } ht
    simp only [hpc, TaskPc.weight_receiving, TaskPc.weight_sending] at hsum
    have hlen := sum_map_set List.length s.streams r (dv :: rest) rest
      (getElem?_of_getD_cons _ _ _ _ hstream)
    simp only [List.length_cons] at hlen
    refine ⟨⟨h.noCrash, h.noShutdown, h.outOpen, h.room, h.doneClosed, h.doneCloses, ?_,
      h.scansP, h.result⟩, ?_⟩
    · intro t' ht'
      rcases List.mem_or_eq_of_mem_set ht' with ht' | ht'
      · exact h.scansT t' ht'
      · subst ht'; simp [hscan]
    · simp only [System.measure]
      omega
  | taskSendPanic i t dv hc ht hpc hcl =>
    have := h.outOpen
    rw [hcl] at this
    cases this
  | taskSend i t dv hc ht hpc hcl hroom =>
    have hsum := sum_map_set (fun t => t.pc.weight) s.tasks i t { t with pc := .receiving } ht
    simp only [hpc, TaskPc.weight_receiving, TaskPc.weight_sending] at hsum
    refine ⟨⟨h.noCrash, h.noShutdown, h.outOpen, h.room, h.doneClosed, h.doneCloses, ?_,
      h.scansP, h.result⟩, ?_⟩
    · intro t' ht'
      rcases List.mem_or_eq_of_mem_set ht' with ht' | ht'
      · exact h.scansT t' ht'
      · subst ht'; exact h.scansT t (List.getElem?_mem ht)
    · simp only [System.measure, List.length_append, List.length_singleton]
      omega
  | consume dv rest hc hbuf =>
    refine ⟨⟨h.noCrash, h.noShutdown, h.outOpen, h.room, h.doneClosed, h.doneCloses, h.scansT,
      h.scansP, h.result⟩, ?_⟩
    simp only [System.measure, hbuf, List.length_cons]
    omega
  | callShutdown hc => exact absurd rfl ha
  | closeQuitPanic j hc hj hcl => simp [h.noShutdown] at hj
  | closeQuit j hc hj hcl => simp [h.noShutdown] at hj
  | closeOutPanic j hc hj hcl => simp [h.noShutdown] at hj
  | closeOut j hc hj hcl => simp [h.noShutdown] at hj
  | waitDone j hc hj hcl => simp [h.noShutdown] at hj

theorem LiveInv_progress {s : System DepositNote} (h : LiveInv s) (hw : WgInv s)
    (hnr : s.multiplex.isReturned = false) :
    ∃ a, a ≠ Action.callShutdown ∧ ∃ s', step s a = some s' := by
  have hc := h.noCrash
  cases hm : s.multiplex with
  | ranging rest =>
    refine ⟨.multiplex, by simp, ?_⟩
    cases rest <;> simp [step, hc, stepMultiplex, hm]
  | waiting =>
    by_cases hwg : s.wg = 0
    · exact ⟨.multiplex, by simp, by simp [step, hc, stepMultiplex, hm, hwg]⟩
    · have hsum : (s.tasks.map (fun t => t.pc.alive)).sum ≠ 0 := by
        rw [← hw.count]; exact hwg
      obtain ⟨i, t, hi, hal⟩ := exists_of_sum_ne_zero _ _ hsum
      cases hpc : t.pc with
      | exited => simp [hpc, TaskPc.alive] at hal
      | receiving =>
        refine ⟨.task i, by simp, ?_⟩
        cases hsc : t.scan with
        | none => simp [step, hc, stepTask, hi, hpc, hsc]
        | some r =>
          cases hst : s.streams.getD r [] with
          | nil =>
            rw [List.getD_eq_getElem?_getD] at hst
            simp [step, hc, stepTask, hi, hpc, hsc, hst, hwg]
          | cons dv rest =>
            rw [List.getD_eq_getElem?_getD] at hst
            simp [step, hc, stepTask, hi, hpc, hsc, hst]
      | sending dv =>
        by_cases hroom : s.m.outChan.buf.length < s.m.outChan.cap
        · exact ⟨.task i, by simp, by simp [step, hc, stepTask, hi, hpc, h.outOpen, hroom]⟩
        · refine ⟨.consume, by simp, ?_⟩
          cases hb : s.m.outChan.buf with
          | nil =>
            have := h.room
            simp [hb] at hroom
            omega
          | cons v rest => simp [step, hc, stepConsume, hb]
  | closingDone =>
    have hd := h.doneClosed
    simp only [hm, MultiplexPc.isReturned] at hd
    exact ⟨.multiplex, by simp, by simp [step, hc, stepMultiplex, hm, hd]⟩
  | returned err => simp [hm, MultiplexPc.isReturned] at hnr

theorem LiveInv_completes (n : Nat) (s : System DepositNote) (hn : s.measure ≤ n)
    (h : LiveInv s) (hw : WgInv s) :
    ∃ more s', Action.callShutdown ∉ more ∧ run s more = some s' ∧
      s'.multiplex = .returned none := by
  induction n generalizing s with
  | zero =>
    cases hm : s.multiplex with
    | returned err =>
      have := h.result err hm
      subst this
      exact ⟨[], s, by simp, rfl, hm⟩
    | _ => simp [System.measure, hm, MultiplexPc.weight] at hn
  | succ n ih =>
    cases hm : s.multiplex with
    | returned err =>
      have := h.result err hm
      subst this
      exact ⟨[], s, by simp, rfl, hm⟩
    | _ =>
      obtain ⟨a, ha, s1, hs1⟩ := LiveInv_progress h hw (by simp [hm, MultiplexPc.isReturned])
      obtain ⟨h1, hlt⟩ := LiveInv_step h hw (Step.of_step hs1) ha
      obtain ⟨more, s', hmore, hrun, hret⟩ :=
        ih s1 (by omega) h1 (WgInv_step hw (Step.of_step hs1))
      refine ⟨a :: more, s', ?_, by simp [run, hs1, hrun], hret⟩
      intro hmem
      rcases List.mem_cons.1 hmem with hmem | hmem
      · exact ha hmem.symm
      · exact hmore hmem

theorem run_LiveInv {s s' : System DepositNote} {acts : List Action} (h : LiveInv s)
    (hw : WgInv s) (hns : Action.callShutdown ∉ acts) (hrun : run s acts = some s') :
    LiveInv s' ∧ WgInv s' ∧ acts.length + s'.measure ≤ s.measure := by
  induction acts generalizing s with
  | nil =>
    simp only [run, Option.some.injEq] at hrun
    subst hrun
    exact ⟨h, hw, by simp⟩
  | cons a as ih =>
    simp only [run] at hrun
    cases hs : step s a with
    | none => simp [hs] at hrun
    | some s1 =>
      simp only [hs] at hrun
      have ha : a ≠ .callShutdown := fun heq => hns (heq ▸ List.mem_cons_self _ _)
      obtain ⟨h1, hlt⟩ := LiveInv_step h hw (Step.of_step hs) ha
      obtain ⟨h2, hw2, hle⟩ := ih h1 (WgInv_step hw (Step.of_step hs))
        (fun hmem => hns (List.mem_cons_of_mem _ hmem)) hrun
      refine ⟨h2, hw2, ?_⟩
      simp only [List.length_cons]
      omega

theorem LiveInv_init (m : Multiplexer DepositNote) (order : List (String × Scanner))
    (streams : List (List DepositNote))
    (hout : m.outChan = Chan.make 1000) (hdone : m.done = Chan.make 1)
    (hnil : ∀ e ∈ order, e.2 ≠ none) : LiveInv (System.init m order streams) where
  noCrash := rfl
  noShutdown := rfl
  outOpen := by simp [System.init, hout, Chan.make]
  room := by simp [System.init, hout, Chan.make]
  doneClosed := by simp [System.init, hdone, Chan.make, MultiplexPc.isReturned]
  doneCloses := by simp [System.init, hdone, Chan.make, MultiplexPc.isReturned]
  scansT := by intro t ht; simp [System.init] at ht
  scansP := by intro e he; exact hnil e he
  result := by intro err herr; simp [System.init] at herr

/-! ## `Shutdown` -/

theorem ShutInv_step {s s' : System DepositNote} {a : Action} (h : ShutInv s)
    (hs : Step s a s') : ShutInv s' := by
  cases hs with
  | leaveLoop hc hpc => exact ⟨h.once, h.closes, h.single, h.quitClosed⟩
  | spawn e rest hc hpc => exact ⟨h.once, h.closes, h.single, h.quitClosed⟩
  | waitPass hc hpc hwg => exact ⟨h.once, h.closes, h.single, h.quitClosed⟩
  | closeDonePanic hc hpc hcl =>
    exact ⟨h.once, fun hx => (by cases hx), fun hx => (by cases hx), fun hx => (by cases hx)⟩
  | closeDone hc hpc hcl => exact ⟨h.once, h.closes, h.single, h.quitClosed⟩
  | taskNil i t hc ht hpc hscan =>
    exact ⟨h.once, fun hx => (by cases hx), fun hx => (by cases hx), fun hx => (by cases hx)⟩
  | taskExitPanic i t r hc ht hpc hscan hstream hwg =>
    exact ⟨h.once, fun hx => (by cases hx), fun hx => (by cases hx), fun hx => (by cases hx)⟩
  | taskExit i t r hc ht hpc hscan hstream hwg =>
    exact ⟨h.once, h.closes, h.single, h.quitClosed⟩
  | taskRecv i t r dv rest hc ht hpc hscan hstream =>
    exact ⟨h.once, h.closes, h.single, h.quitClosed⟩
  | taskSendPanic i t dv hc ht hpc hcl =>
    exact ⟨h.once, fun hx => (by cases hx), fun hx => (by cases hx), fun hx => (by cases hx)⟩
  | taskSend i t dv hc ht hpc hcl hroom =>
    exact ⟨h.once, h.closes, h.single, h.quitClosed⟩
  | consume dv rest hc hbuf => exact ⟨h.once, h.closes, h.single, h.quitClosed⟩
  | callShutdown hc =>
    have h1 := h.closes hc
    have h2 := h.single hc
    have h3 := h.quitClosed hc
    refine ⟨h.once, fun _ => ?_, fun _ => ?_, fun _ => ?_⟩
    · simpa [ShutdownPc.pastCloseOut] using h1
    · simpa [ShutdownPc.pastCloseOut, ShutdownPc.atCloseOut] using h2
    · simpa [ShutdownPc.pastCloseOut, ShutdownPc.atCloseOut] using h3
  | closeQuitPanic j hc hj hcl =>
    exact ⟨h.once, fun hx => (by cases hx), fun hx => (by cases hx), fun hx => (by cases hx)⟩
  | closeQuit j hc hj hcl =>
    have h1 := h.closes hc
    have h3 := h.quitClosed hc
    have hzero : (s.shutdowns.map ShutdownPc.atCloseOut).sum +
        (s.shutdowns.map ShutdownPc.pastCloseOut).sum = 0 := by
      by_contra hne
      have := h3 (Nat.pos_of_ne_zero hne)
      rw [hcl] at this
      cases this
    have ha := sum_map_set ShutdownPc.atCloseOut s.shutdowns j .closeQuit .closeOutChan hj
    have hp := sum_map_set ShutdownPc.pastCloseOut s.shutdowns j .closeQuit .closeOutChan hj
    simp only [ShutdownPc.atCloseOut, ShutdownPc.pastCloseOut] at ha hp
    refine ⟨h.once, fun _ => ?_, fun _ => ?_, fun _ _ => rfl⟩
    · dsimp only [Chan.close]
      omega
    · dsimp only [Chan.close]
      omega
  | closeOutPanic j hc hj hcl =>
    have h1 := h.closes hc
    have h2 := h.single hc
    have ha := le_sum_of_getElem? ShutdownPc.atCloseOut s.shutdowns j _ hj
    simp only [ShutdownPc.atCloseOut] at ha
    refine ⟨?_, fun hx => (by cases hx), fun hx => (by cases hx), fun hx => (by cases hx)⟩
    dsimp only [Chan.close]
    omega
  | closeOut j hc hj hcl =>
    have h1 := h.closes hc
    have h2 := h.single hc
    have h3 := h.quitClosed hc
    have hle := le_sum_of_getElem? ShutdownPc.atCloseOut s.shutdowns j _ hj
    have ha := sum_map_set ShutdownPc.atCloseOut s.shutdowns j .closeOutChan .waitDone hj
    have hp := sum_map_set ShutdownPc.pastCloseOut s.shutdowns j .closeOutChan .waitDone hj
    simp only [ShutdownPc.atCloseOut, ShutdownPc.pastCloseOut] at ha hp hle
    refine ⟨?_, fun _ => ?_, fun _ => ?_, fun _ _ => ?_⟩
    · dsimp only [Chan.close]
      omega
    · dsimp only [Chan.close]
      omega
    · dsimp only [Chan.close]
      omega
    · exact h3 (by omega)
  | waitDone j hc hj hcl =>
    have h1 := h.closes hc
    have h2 := h.single hc
    have h3 := h.quitClosed hc
    have ha := sum_map_set ShutdownPc.atCloseOut s.shutdowns j .waitDone .returned hj
    have hp := sum_map_set ShutdownPc.pastCloseOut s.shutdowns j .waitDone .returned hj
    simp only [ShutdownPc.atCloseOut, ShutdownPc.pastCloseOut] at ha hp
    refine ⟨h.once, fun _ => ?_, fun _ => ?_, fun _ hpos => ?_⟩
    · dsimp only [Chan.close]
      omega
    · dsimp only [Chan.close]
      omega
    · refine h3 ?_
      have hpos' : 0 < (List.map ShutdownPc.atCloseOut (s.shutdowns.set j .returned)).sum +
          (List.map ShutdownPc.pastCloseOut (s.shutdowns.set j .returned)).sum := hpos
      omega

theorem ShutInv_init (m : Multiplexer DepositNote) (order : List (String × Scanner))
    (streams : List (List DepositNote))
    (hout : m.outChan = Chan.make 1000) : ShutInv (System.init m order streams) where
  once := by simp [System.init, hout, Chan.make]
  closes := by intro _; simp [System.init, hout, Chan.make]
  single := by intro _; simp [System.init]
  quitClosed := by intro _ hpos; simp [System.init] at hpos

theorem quiescent_iff (s : System DepositNote) :
    s.quiescent = true ↔
      (∀ t ∈ s.tasks, t.pc.isSending = false) ∧
        ∀ e ∈ s.m.scannerMap, streamOf s.streams e.2 = [] := by
  simp [System.quiescent, List.all_eq_true, List.isEmpty_iff]

theorem set_ne_nil {α : Type} (l : List α) (j : Nat) (x y : α) (h : l[j]? = some x) :
    l.set j y ≠ [] := by
  cases l with
  | nil => simp at h
  | cons z zs => cases j <;> simp [List.set]

theorem ne_nil_of_getElem? {α : Type} (l : List α) (j : Nat) (x : α) (h : l[j]? = some x) :
    l ≠ [] := by
  intro hl
  simp [hl] at h

theorem QuietInv_step {s s' : System DepositNote} {a : Action} (h : QuietInv s)
    (hs : Step s a s') (hcall : a = .callShutdown → s.quiescent = true) : QuietInv s' := by
  cases hs with
  | leaveLoop hc hpc =>
    exact ⟨h.quiet, h.closer, h.scansT, by simp [MultiplexPc.pending]⟩
  | spawn e rest hc hpc =>
    have hP := h.scansP
    rw [hpc] at hP
    refine ⟨?_, h.closer, ?_, fun e' he' => hP e' (List.mem_cons_of_mem _ he')⟩
    · intro hne
      have hq := (quiescent_iff s).1 (h.quiet hne)
      refine (quiescent_iff _).2 ⟨?_, hq.2⟩
      intro t ht
      rcases List.mem_append.1 ht with ht | ht
      · exact hq.1 t ht
      · simp at ht; subst ht; rfl
    · intro t ht
      rcases List.mem_append.1 ht with ht | ht
      · exact h.scansT t ht
      · simp at ht; subst ht
        exact List.mem_map.2 ⟨e, hP e (List.mem_cons_self _ _), rfl⟩
  | waitPass hc hpc hwg =>
    exact ⟨h.quiet, h.closer, h.scansT, by simp [MultiplexPc.pending]⟩
  | closeDonePanic hc hpc hcl => exact ⟨h.quiet, h.closer, h.scansT, h.scansP⟩
  | closeDone hc hpc hcl =>
    exact ⟨h.quiet, h.closer, h.scansT, by simp [MultiplexPc.pending]⟩
  | taskNil i t hc ht hpc hscan => exact ⟨h.quiet, h.closer, h.scansT, h.scansP⟩
  | taskExitPanic i t r hc ht hpc hscan hstream hwg =>
    exact ⟨h.quiet, h.closer, h.scansT, h.scansP⟩
  | taskExit i t r hc ht hpc hscan hstream hwg =>
    refine ⟨?_, h.closer, ?_, h.scansP⟩
    · intro hne
      have hq := (quiescent_iff s).1 (h.quiet hne)
      refine (quiescent_iff _).2 ⟨?_, hq.2⟩
      intro t' ht'
      rcases List.mem_or_eq_of_mem_set ht' with ht' | ht'
      · exact hq.1 t' ht'
      · subst ht'; rfl
    · intro t' ht'
      rcases List.mem_or_eq_of_mem_set ht' with ht' | ht'
      · exact h.scansT t' ht'
      · subst ht'; exact h.scansT t (List.getElem?_mem ht)
  | taskRecv i t r dv rest hc ht hpc hscan hstream =>
    have hreg := h.scansT t (List.getElem?_mem ht)
    refine ⟨?_, h.closer, ?_, h.scansP⟩
    · intro hne
      exfalso
      have hq := (quiescent_iff s).1 (h.quiet hne)
      obtain ⟨e, he, hes⟩ := List.mem_map.1 hreg
      have := hq.2 e he
      rw [hes, hscan] at this
      simp only [streamOf] at this
      rw [this] at hstream
      cases hstream
    · intro t' ht'
      rcases List.mem_or_eq_of_mem_set ht' with ht' | ht'
      · exact h.scansT t' ht'
      · subst ht'; exact hreg
  | taskSendPanic i t dv hc ht hpc hcl => exact ⟨h.quiet, h.closer, h.scansT, h.scansP⟩
  | taskSend i t dv hc ht hpc hcl hroom =>
    refine ⟨?_, h.closer, ?_, h.scansP⟩
    · intro hne
      exfalso
      have hq := (quiescent_iff s).1 (h.quiet hne)
      have := hq.1 t (List.getElem?_mem ht)
      simp [hpc, TaskPc.isSending] at this
    · intro t' ht'
      rcases List.mem_or_eq_of_mem_set ht' with ht' | ht'
      · exact h.scansT t' ht'
      · subst ht'; exact h.scansT t (List.getElem?_mem ht)
  | consume dv rest hc hbuf => exact ⟨h.quiet, h.closer, h.scansT, h.scansP⟩
  | callShutdown hc =>
    exact ⟨fun _ => hcall rfl, fun _ => by simp, h.scansT, h.scansP⟩
  | closeQuitPanic j hc hj hcl => exact ⟨h.quiet, h.closer, h.scansT, h.scansP⟩
  | closeQuit j hc hj hcl =>
    exact ⟨fun _ => h.quiet (ne_nil_of_getElem? _ _ _ hj), fun _ => set_ne_nil _ _ _ _ hj,
      h.scansT, h.scansP⟩
  | closeOutPanic j hc hj hcl =>
    exact ⟨h.quiet, fun _ => ne_nil_of_getElem? _ _ _ hj, h.scansT, h.scansP⟩
  | closeOut j hc hj hcl =>
    exact ⟨fun _ => h.quiet (ne_nil_of_getElem? _ _ _ hj), fun _ => set_ne_nil _ _ _ _ hj,
      h.scansT, h.scansP⟩
  | waitDone j hc hj hcl =>
    exact ⟨fun _ => h.quiet (ne_nil_of_getElem? _ _ _ hj), fun _ => set_ne_nil _ _ _ _ hj,
      h.scansT, h.scansP⟩

theorem run_QuietInv {s s' : System DepositNote} {acts : List Action} (h : QuietInv s)
    (hrun : run s acts = some s') (hob : obeysShutdownContract s acts = true) :
    QuietInv s' := by
  induction acts generalizing s with
  | nil =>
    simp only [run, Option.some.injEq] at hrun
    exact hrun ▸ h
  | cons a as ih =>
    simp only [run] at hrun
    cases hs : step s a with
    | none => simp [hs] at hrun
    | some s1 =>
      simp only [hs] at hrun
      simp only [obeysShutdownContract, hs, Bool.and_eq_true, Bool.or_eq_true] at hob
      refine ih (QuietInv_step h (Step.of_step hs) ?_) hrun hob.2
      intro ha
      rcases hob.1 with hne | hq
      · simp [ha] at hne
      · exact hq

theorem QuietInv_init (m : Multiplexer DepositNote) (order : List (String × Scanner))
    (streams : List (List DepositNote)) (hout : m.outChan = Chan.make 1000)
    (hord : ∀ e ∈ order, e ∈ m.scannerMap) : QuietInv (System.init m order streams) where
  quiet := by intro hne; exact absurd rfl hne
  closer := by intro hcl; simp [System.init, hout, Chan.make] at hcl
  scansT := by intro t ht; simp [System.init] at ht
  scansP := by intro e he; exact hord e he

/-! ## The claims about `Multiplex` and `Shutdown` -/

/-- C3 (amended). For a registry built by `AddScanner` calls whose entries hold
pairwise distinct producers, whatever the order in which `Multiplex` visits the
map, in every execution in which `Multiplex` has returned: the goroutine of
each registered producer has sent exactly that producer's stream, in order;
every send came from a registered producer; the output is a permutation of the
concatenation of the producers' streams; each stream is a subsequence of the
output; and the output is what the consumer has received followed by what is
still buffered in `outChan`. -/
theorem Multiplex_interleaving (calls : List (Scanner × String))
    (order : List (String × Scanner)) (streams : List (List DepositNote))
    (acts : List Action) (s : System DepositNote) (err : Option GoError)
    (hord : order.Perm (registered DepositNote calls).scannerMap)
    (hdistinct : ((registered DepositNote calls).scannerMap.map Prod.snd).Nodup)
    (hrun : run (System.init (registered DepositNote calls) order streams) acts = some s)
    (hret : s.multiplex = .returned err) :
    (∀ e ∈ (registered DepositNote calls).scannerMap, s.outputOf e.2 = streamOf streams e.2) ∧
      (∀ x ∈ s.sent, x.1 ∈ (registered DepositNote calls).scannerMap.map Prod.snd) ∧
      s.output.Perm
        (((registered DepositNote calls).scannerMap.map
          (fun e => streamOf streams e.2)).flatten) ∧
      (∀ e ∈ (registered DepositNote calls).scannerMap,
        (streamOf streams e.2).Sublist s.output) ∧
      s.consumed ++ s.m.outChan.buf = s.output := by
  have hbuf : (registered DepositNote calls).outChan.buf = [] := by
    rw [registered_outChan]; rfl
  have hnd : (order.map Prod.snd).Nodup := ((hord.map Prod.snd).nodup_iff).2 hdistinct
  have hF := run_FlowInv hnd (FlowInv_init _ order streams hbuf) hrun
  have hW := run_WgInv (WgInv_init _ order streams) hrun
  obtain ⟨hout, htag⟩ := FlowInv_returned hF hW (by rw [hret]; rfl)
  have hout' : ∀ e ∈ (registered DepositNote calls).scannerMap,
      s.outputOf e.2 = streamOf streams e.2 :=
    fun e he => hout e.2 (List.mem_map.2 ⟨e, hord.mem_iff.2 he, rfl⟩)
  refine ⟨hout', fun x hx => (hord.map Prod.snd).mem_iff.1 (htag x hx), ?_, ?_, hF.fifo⟩
  · have hperm := perm_join_proj _ s.sent hnd htag
    refine hperm.trans ?_
    rw [List.map_map]
    refine List.Perm.trans (List.Perm.of_eq ?_) ((hord.map _).flatten)
    congr 1
    apply List.map_congr_left
    intro e he
    exact hout' e (hord.mem_iff.1 he)
  · intro e he
    rw [← hout' e he]
    exact (List.filter_sublist _).map _

/-- C3, a concrete run: "btc" emits 10 then 11, "eth" emits 20, `Multiplex`
visits "eth" first; the consumer observes 20, 10, 11. -/
theorem Multiplex_interleaving_witness :
    ∃ s : System Nat,
      [("eth", some 1), ("btc", some 0)].Perm
        (registered Nat [(some 0, "btc"), (some 1, "eth")]).scannerMap ∧
      ((registered Nat [(some 0, "btc"), (some 1, "eth")]).scannerMap.map Prod.snd).Nodup ∧
      run (System.init (registered Nat [(some 0, "btc"), (some 1, "eth")])
          [("eth", some 1), ("btc", some 0)] [[10, 11], [20]])
        [.multiplex, .multiplex, .task 1, .task 0, .task 0, .task 1, .task 1, .task 1,
          .task 1, .task 0, .multiplex, .multiplex, .multiplex, .consume, .consume,
          .consume] = some s ∧
      s.multiplex = .returned none ∧ s.consumed = [20, 10, 11] ∧
      (∀ e ∈ (registered Nat [(some 0, "btc"), (some 1, "eth")]).scannerMap,
        s.outputOf e.2 = streamOf [[10, 11], [20]] e.2) ∧
      (∀ x ∈ s.sent,
        x.1 ∈ (registered Nat [(some 0, "btc"), (some 1, "eth")]).scannerMap.map Prod.snd) ∧
      s.output.Perm
        (((registered Nat [(some 0, "btc"), (some 1, "eth")]).scannerMap.map
          (fun e => streamOf [[10, 11], [20]] e.2)).flatten) ∧
      (∀ e ∈ (registered Nat [(some 0, "btc"), (some 1, "eth")]).scannerMap,
        (streamOf [[10, 11], [20]] e.2).Sublist s.output) ∧
      s.consumed ++ s.m.outChan.buf = s.output :=
  ⟨_, by decide, by decide, rfl, rfl, rfl,
    Multiplex_interleaving [(some 0, "btc"), (some 1, "eth")]
      [("eth", some 1), ("btc", some 0)] [[10, 11], [20]]
      [.multiplex, .multiplex, .task 1, .task 0, .task 0, .task 1, .task 1, .task 1,
        .task 1, .task 0, .multiplex, .multiplex, .multiplex, .consume, .consume,
        .consume] _ none (by decide) (by decide) rfl rfl⟩

/-- C3 as stated fails when one producer is registered under two coin types:
its stream 1, 2 is shared by two goroutines, `Multiplex` returns, and the
consumer observes 2 before 1. -/
theorem Multiplex_shared_producer_reorders :
    (registered Nat [(some 0, "a"), (some 0, "b")]).scannerMap =
        [("a", some 0), ("b", some 0)] ∧
      (run (System.init (registered Nat [(some 0, "a"), (some 0, "b")])
          [("a", some 0), ("b", some 0)] [[1, 2]])
        [.multiplex, .multiplex, .task 0, .task 1, .task 1, .task 0, .task 0, .task 1,
          .multiplex, .multiplex, .multiplex, .consume, .consume]).map
      (fun s => (s.multiplex, s.crashed, s.output, s.consumed)) =
        some (.returned none, none, [2, 1], [2, 1]) ∧
      ¬ List.Sublist [1, 2] [2, 1] := by
  decide

/-- C6. For a registry built by `AddScanner` calls (the empty one included),
whatever the order in which `Multiplex` visits the map, and finite producer
streams, along every execution without a `Shutdown` call: the execution is no
longer than the initial measure, so none runs forever; nothing panics; when
`Multiplex` has returned, its result is nil and `done` is closed,
`close(m.done)` having been executed exactly once; while it has not returned,
some goroutine other than a `Shutdown` caller can move; and the execution
extends, without `Shutdown`, to one in which `Multiplex` has returned nil. -/
theorem Multiplex_returns (calls : List (Scanner × String))
    (order : List (String × Scanner)) (streams : List (List DepositNote))
    (acts : List Action) (s : System DepositNote)
    (hord : order.Perm (registered DepositNote calls).scannerMap)
    (hns : Action.callShutdown ∉ acts)
    (hrun : run (System.init (registered DepositNote calls) order streams) acts = some s) :
    acts.length ≤ (System.init (registered DepositNote calls) order streams).measure ∧
      s.crashed = none ∧
      (∀ err, s.multiplex = .returned err →
        err = none ∧ s.m.done.closed = true ∧ s.m.done.closes = 1) ∧
      (s.multiplex.isReturned = false →
        ∃ a, a ≠ Action.callShutdown ∧ ∃ s', step s a = some s') ∧
      ∃ more s', Action.callShutdown ∉ more ∧ run s more = some s' ∧
        s'.multiplex = .returned none := by
  have h0 : LiveInv (System.init (registered DepositNote calls) order streams) :=
    LiveInv_init _ order streams (registered_outChan calls) (registered_done calls)
      (fun e he => (registered_inv calls).2.2 e (hord.mem_iff.1 he))
  obtain ⟨hL, hW, hle⟩ := run_LiveInv h0 (WgInv_init _ order streams) hns hrun
  refine ⟨by omega, hL.noCrash, ?_, fun hnr => LiveInv_progress hL hW hnr,
    LiveInv_completes s.measure s (Nat.le_refl _) hL hW⟩
  intro err herr
  have hc := hL.doneClosed
  have hn := hL.doneCloses
  simp only [herr, MultiplexPc.isReturned] at hc hn
  exact ⟨hL.result err herr, hc, by simpa using hn⟩

/-- C6, a concrete run: one producer emitting 7, a consumer, no `Shutdown`. -/
theorem Multiplex_returns_witness :
    ∃ s : System Nat,
      [("btc", some 0)].Perm (registered Nat [(some 0, "btc")]).scannerMap ∧
      Action.callShutdown ∉
        [Action.multiplex, .task 0, .task 0, .consume, .task 0, .multiplex, .multiplex,
          .multiplex] ∧
      run (System.init (registered Nat [(some 0, "btc")]) [("btc", some 0)] [[7]])
        [Action.multiplex, .task 0, .task 0, .consume, .task 0, .multiplex, .multiplex,
          .multiplex] = some s ∧
      s.multiplex = .returned none ∧ s.consumed = [7] ∧
      (8 ≤ (System.init (registered Nat [(some 0, "btc")]) [("btc", some 0)] [[7]]).measure ∧
        s.crashed = none ∧
        (∀ err, s.multiplex = .returned err →
          err = none ∧ s.m.done.closed = true ∧ s.m.done.closes = 1) ∧
        (s.multiplex.isReturned = false →
          ∃ a, a ≠ Action.callShutdown ∧ ∃ s', step s a = some s') ∧
        ∃ more s', Action.callShutdown ∉ more ∧ run s more = some s' ∧
          s'.multiplex = .returned none) :=
  ⟨_, by decide, by decide, rfl, rfl, rfl,
    Multiplex_returns [(some 0, "btc")] [("btc", some 0)] [[7]]
      [Action.multiplex, .task 0, .task 0, .consume, .task 0, .multiplex, .multiplex,
        .multiplex] _ (by decide) (by decide) rfl⟩

/-- C8 (amended). For a registry built by `AddScanner` calls, whatever the order
in which `Multiplex` visits the map, in every execution: `close(m.outChan)` is
executed at most once; and if `Shutdown` is only ever called in a quiescent
state (no forwarding goroutine holds a value and every registered producer's
stream is used up), then whenever `outChan` is closed no forwarding goroutine
holds a value to publish. -/
theorem outChan_closed_once_after_senders (calls : List (Scanner × String))
    (order : List (String × Scanner)) (streams : List (List DepositNote))
    (acts : List Action) (s : System DepositNote)
    (hord : order.Perm (registered DepositNote calls).scannerMap)
    (hrun : run (System.init (registered DepositNote calls) order streams) acts = some s) :
    s.m.outChan.closes ≤ 1 ∧
      (obeysShutdownContract (System.init (registered DepositNote calls) order streams) acts =
          true →
        s.m.outChan.closed = true → ∀ t ∈ s.tasks, t.pc.isSending = false) := by
  constructor
  · exact (run_induction ShutInv (fun _ _ _ hI hS => ShutInv_step hI hS) _ acts s
      (ShutInv_init _ order streams (registered_outChan calls)) hrun).once
  · intro hob hcl
    have hQ := run_QuietInv
      (QuietInv_init _ order streams (registered_outChan calls) (fun e he => hord.mem_iff.1 he))
      hrun hob
    exact ((quiescent_iff s).1 (hQ.quiet (hQ.closer hcl))).1

/-- C8, a concrete run: `Shutdown` is called once the only producer's value
has been forwarded, a second `Shutdown` call has not moved yet, and `outChan`
is closed with no goroutine holding a value. -/
theorem outChan_closed_once_after_senders_witness :
    ∃ s : System Nat,
      [("btc", some 0)].Perm (registered Nat [(some 0, "btc")]).scannerMap ∧
      run (System.init (registered Nat [(some 0, "btc")]) [("btc", some 0)] [[7]])
        [Action.multiplex, .task 0, .task 0, .callShutdown, .shutdown 0, .callShutdown,
          .shutdown 0, .task 0, .multiplex, .multiplex, .multiplex, .shutdown 0] = some s ∧
      obeysShutdownContract
        (System.init (registered Nat [(some 0, "btc")]) [("btc", some 0)] [[7]])
        [Action.multiplex, .task 0, .task 0, .callShutdown, .shutdown 0, .callShutdown,
          .shutdown 0, .task 0, .multiplex, .multiplex, .multiplex, .shutdown 0] = true ∧
      s.m.outChan.closed = true ∧ s.shutdowns = [.returned, .closeQuit] ∧
      (s.m.outChan.closes ≤ 1 ∧
        (obeysShutdownContract
            (System.init (registered Nat [(some 0, "btc")]) [("btc", some 0)] [[7]])
            [Action.multiplex, .task 0, .task 0, .callShutdown, .shutdown 0, .callShutdown,
              .shutdown 0, .task 0, .multiplex, .multiplex, .multiplex, .shutdown 0] = true →
          s.m.outChan.closed = true → ∀ t ∈ s.tasks, t.pc.isSending = false)) :=
  ⟨_, by decide, rfl, by decide, rfl, rfl,
    outChan_closed_once_after_senders [(some 0, "btc")] [("btc", some 0)] [[7]]
      [Action.multiplex, .task 0, .task 0, .callShutdown, .shutdown 0, .callShutdown,
        .shutdown 0, .task 0, .multiplex, .multiplex, .multiplex, .shutdown 0] _
      (by decide) rfl⟩

/-- C8 as stated fails: `Shutdown` called while the forwarding goroutine holds
the value 7 closes `outChan` under it, and the goroutine's send then panics. -/
theorem Shutdown_closes_outChan_under_sender :
    (registered Nat [(some 0, "btc")]).scannerMap = [("btc", some 0)] ∧
      (run (System.init (registered Nat [(some 0, "btc")]) [("btc", some 0)] [[7]])
        [.multiplex, .task 0, .callShutdown, .shutdown 0, .shutdown 0]).map
      (fun s => (s.m.outChan.closed, s.tasks, s.crashed)) =
        some (true, [⟨some 0, .sending 7⟩], none) ∧
      (run (System.init (registered Nat [(some 0, "btc")]) [("btc", some 0)] [[7]])
        [.multiplex, .task 0, .callShutdown, .shutdown 0, .shutdown 0, .task 0]).map
      (fun s => s.crashed) = some (some .sendOnClosedChannel) := by
  decide

end Teller
